import Mathlib

/-!
Verification of dubbo-go: change events (`remoting/listener.go`) and local
address resolution (`common/utils/net.go`).

A shallow embedding of the two source files and the properties proved about
them.  Go values are embedded as follows.

* `int` is `Int`; a byte is a `Nat` below 256.
* A Go call that either returns or panics yields an `Outcome`.
* A Go `(value, error)` pair is a Lean pair whose second component is an
  `Option` (`none` is the nil error).
* The operating system is an input: what `net.Interfaces()` and each
  `face.Addrs()` answer is part of the argument of `GetLocalIP`.
-/

namespace Dubbo

/-! ## Go runtime: calls that may panic, array indexing -/

/-- Result of a Go call: it returns a value, or it panics with a runtime error
whose `Error()` text is `msg`. -/
inductive Outcome (α : Type) where
  | ret (a : α)
  | panic (msg : String)
  deriving DecidableEq, Repr

/-- Text of the run-time panic raised by an out-of-range index `i` into an
array of length `len`: Go reports the length only for a non-negative index. -/
def boundsErrorText (i : Int) (len : Nat) : String :=
  if i < 0 then
    "runtime error: index out of range [" ++ toString i ++ "]"
  else
    "runtime error: index out of range [" ++ toString i ++ "] with length " ++ toString len

/-- Go index expression `a[i]` on an array of strings with an `int` index. -/
def index (a : List String) (i : Int) : Outcome String :=
  if 0 ≤ i then
    match a.get? i.toNat with
    | some s => .ret s
    | none => .panic (boundsErrorText i a.length)
  else
    .panic (boundsErrorText i a.length)

/-! ## Go standard library: `strings` -/

namespace strings

/-- Lower-case image of one rune under `unicode.ToLower`, exact on every rune
whose image is an ASCII letter: the letters `A`..`Z`, U+0130 (to `i`) and the
Kelvin sign U+212A (to `k`).  The other upper-case letters have images outside
ASCII and are kept as they are, which leaves every test for an ASCII
substring of the lowered text unchanged. -/
def toLowerRune (c : Char) : Char :=
  if 65 ≤ c.toNat ∧ c.toNat ≤ 90 then Char.ofNat (c.toNat + 32)
  else if c.toNat = 0x130 then 'i'
  else if c.toNat = 0x212A then 'k'
  else c

/-- Go `strings.ToLower`. -/
def ToLower (s : String) : String :=
  ⟨s.data.map toLowerRune⟩

/-- Go `strings.HasPrefix` on character lists. -/
def hasPrefix : List Char → List Char → Bool
  | _, [] => true
  | [], _ :: _ => false
  | c :: s, d :: p => c == d && hasPrefix s p

/-- Substring search behind `strings.Contains`: is `sub` a prefix of some
suffix of `s`. -/
def containsAt : List Char → List Char → Bool
  | [], sub => hasPrefix [] sub
  | c :: s, sub => hasPrefix (c :: s) sub || containsAt s sub

/-- Go `strings.Contains(s, substr)`. -/
def Contains (s substr : String) : Bool :=
  containsAt s.data substr.data

end strings

/-! ## Go standard library: `net` (the parts `common/utils/net.go` calls) -/

namespace net

/-- Go `net.IP`, a byte slice: `none` is the nil slice. -/
abbrev IP := Option (List Nat)

/-- Go `len(ip)`; the nil slice has length 0. -/
def IP.len (ip : IP) : Nat :=
  match ip with
  | none => 0
  | some b => b.length

/-- The bytes of the slice (none for nil). -/
def IP.bytes (ip : IP) : List Nat :=
  match ip with
  | none => []
  | some b => b

/-- Constant `net.IPv4len`. -/
def IPv4len : Nat := 4

/-- Constant `net.IPv6len`. -/
def IPv6len : Nat := 16

/-- The 12-byte prefix `v4InV6Prefix` of an IPv4-mapped IPv6 address. -/
def v4InV6Prefix : List Nat := [0, 0, 0, 0, 0, 0, 0, 0, 0, 0, 0xff, 0xff]

/-- The address `net.IPv6loopback`, that is `::1`. -/
def IPv6loopback : IP := some [0, 0, 0, 0, 0, 0, 0, 0, 0, 0, 0, 0, 0, 0, 0, 1]

/-- Go `isZeros`. -/
def isZeros (p : List Nat) : Bool :=
  p.all fun b => b == 0

/-- Go `IP.To4`: a 4-byte address as it is, the last four bytes of a 16-byte
IPv4-mapped address, nil otherwise. -/
def IP.To4 (ip : IP) : IP :=
  if ip.len = IPv4len then ip
  else if ip.len = IPv6len ∧ isZeros (ip.bytes.take 10) = true
      ∧ ip.bytes.getD 10 0 = 0xff ∧ ip.bytes.getD 11 0 = 0xff then
    some (ip.bytes.drop 12)
  else none

/-- Go `IP.Equal`. -/
def IP.Equal (ip x : IP) : Bool :=
  if ip.len = x.len then ip.bytes == x.bytes
  else if ip.len = IPv4len ∧ x.len = IPv6len then
    x.bytes.take 12 == v4InV6Prefix && ip.bytes == x.bytes.drop 12
  else if ip.len = IPv6len ∧ x.len = IPv4len then
    ip.bytes.take 12 == v4InV6Prefix && ip.bytes.drop 12 == x.bytes
  else false

/-- Go `IP.IsLoopback`: first byte 127 for an IPv4 address, `::1` otherwise. -/
def IP.IsLoopback (ip : IP) : Bool :=
  match ip.To4 with
  | some ip4 => ip4.getD 0 0 == 127
  | none => ip.Equal IPv6loopback

/-- Go `net.IPNet`: a network number and a mask (a byte slice, nil as `[]`). -/
structure IPNet where
  IP : IP
  Mask : List Nat
  deriving DecidableEq, Repr

/-- Go `networkNumberAndMask`; `(none, [])` is the pair `(nil, nil)`. -/
def networkNumberAndMask (n : IPNet) : IP × List Nat :=
  let ip4 := n.IP.To4
  let ip := if ip4 = none then n.IP else ip4
  if ip4 = none ∧ ip.len ≠ IPv6len then (none, [])
  else if n.Mask.length = IPv4len then
    if ip.len ≠ IPv4len then (none, []) else (ip, n.Mask)
  else if n.Mask.length = IPv6len then
    if ip.len = IPv4len then (ip, n.Mask.drop 12) else (ip, n.Mask)
  else (none, [])

/-- Go `(*IPNet).Contains`: equal under the mask, byte by byte. -/
def IPNet.Contains (n : IPNet) (ip : net.IP) : Bool :=
  let nm := networkNumberAndMask n
  let nn := nm.1
  let m := nm.2
  let ip := if ip.To4 = none then ip else ip.To4
  let l := ip.len
  if l ≠ nn.len then false
  else (List.range l).all fun i =>
    (nn.bytes.getD i 0 &&& m.getD i 0) == (ip.bytes.getD i 0 &&& m.getD i 0)

/-- Go `net.CIDRMask(ones, bits)`; `none` is the nil mask. -/
def CIDRMask (ones bits : Nat) : Option (List Nat) :=
  if bits ≠ 8 * IPv4len ∧ bits ≠ 8 * IPv6len then none
  else if ones > bits then none
  else some ((List.range (bits / 8)).map fun i =>
    if ones ≥ 8 * (i + 1) then 0xff
    else if ones ≤ 8 * i then 0
    else 0xff - (0xff >>> (ones - 8 * i)))

/-- Go `IP.Mask`. -/
def IP.Mask (ip : IP) (mask : List Nat) : IP :=
  let mask := if mask.length = IPv6len ∧ ip.len = IPv4len
      ∧ (mask.take 12).all (fun b => b == 0xff) = true then mask.drop 12 else mask
  let ip : IP := if mask.length = IPv4len ∧ ip.len = IPv6len
      ∧ ip.bytes.take 12 = v4InV6Prefix then some (ip.bytes.drop 12) else ip
  if ip.len ≠ mask.length then none
  else some ((List.range ip.len).map fun i => ip.bytes.getD i 0 &&& mask.getD i 0)

/-- The loop of `netip.parseIPv4Fields` over the remaining text: `prev` is the
character before the current one, `val` and `digLen` describe the octet being
read, `fields` the octets already complete (`pos` is their number). -/
def parseIPv4Fields : List Char → Option Char → Nat → Nat → List Nat → Option (List Nat)
  | [], _, val, _, fields => if fields.length < 3 then none else some (fields ++ [val])
  | c :: rest, prev, val, digLen, fields =>
    if 48 ≤ c.toNat ∧ c.toNat ≤ 57 then
      if digLen = 1 ∧ val = 0 then none
      else if val * 10 + (c.toNat - 48) > 255 then none
      else parseIPv4Fields rest (some c) (val * 10 + (c.toNat - 48)) (digLen + 1) fields
    else if c = '.' then
      if prev = none ∨ rest = [] ∨ prev = some '.' then none
      else if fields.length = 3 then none
      else parseIPv4Fields rest (some c) 0 0 (fields ++ [val])
    else none

/-- Go `netip.ParseAddr` on dotted-decimal IPv4 text, giving the four bytes.
Text whose first separator is `:` (IPv6) is outside this model and is reported
as a parse error, like text with no separator or with `%` first. -/
def ParseAddr (s : List Char) : Option (List Nat) :=
  match s.find? fun c => c = '.' ∨ c = ':' ∨ c = '%' with
  | some '.' => parseIPv4Fields s none 0 0 []
  | _ => none

/-- The loop of Go `dtoi`: decimal digits at the start of the text, with the
number read so far and the count of digits; `none` when the number reaches
`0xFFFFFF`. -/
def dtoiLoop : List Char → Nat → Nat → Option (Nat × Nat)
  | [], n, i => some (n, i)
  | c :: rest, n, i =>
    if 48 ≤ c.toNat ∧ c.toNat ≤ 57 then
      if n * 10 + (c.toNat - 48) ≥ 0xFFFFFF then none
      else dtoiLoop rest (n * 10 + (c.toNat - 48)) (i + 1)
    else some (n, i)

/-- Go `dtoi`: `(n, i)` when it reports `ok`. -/
def dtoi (s : List Char) : Option (Nat × Nat) :=
  match dtoiLoop s 0 0 with
  | some (n, i) => if i = 0 then none else some (n, i)
  | none => none

/-- Go `net.ParseCIDR` on IPv4 text `a.b.c.d/n`: the address in 16-byte form
and the network; `none` when Go returns an error. -/
def ParseCIDR (s : String) : Option (IP × IPNet) :=
  let addr := s.data.takeWhile fun c => c ≠ '/'
  let tail := s.data.dropWhile fun c => c ≠ '/'
  match tail with
  | [] => none
  | _ :: mask =>
    match ParseAddr addr with
    | none => none
    | some ip4 =>
      match dtoi mask with
      | none => none
      | some (n, i) =>
        if i ≠ mask.length ∨ n > 32 then none
        else
          match CIDRMask n 32 with
          | none => none
          | some m =>
            let addr16 : IP := some (v4InV6Prefix ++ ip4)
            some (addr16, { IP := addr16.Mask m, Mask := m })

/-- Go `ubtoa`: decimal text of one byte. -/
def ubtoa (v : Nat) : String :=
  if v < 10 then ⟨[Char.ofNat (v + 48)]⟩
  else if v < 100 then ⟨[Char.ofNat (v / 10 + 48), Char.ofNat (v % 10 + 48)]⟩
  else ⟨[Char.ofNat (v / 100 + 48), Char.ofNat (v / 10 % 10 + 48), Char.ofNat (v % 10 + 48)]⟩

/-- Lower-case hexadecimal text of a number, without leading zeros. -/
def appendHex (x : Nat) : String :=
  ⟨Nat.toDigits 16 x⟩

/-- Go `hexString`: two lower-case hexadecimal digits per byte. -/
def hexString (b : List Nat) : String :=
  ⟨b.flatMap fun x => [Nat.digitChar (x / 16), Nat.digitChar (x % 16)]⟩

/-- The eight 16-bit groups of a 16-byte address. -/
def v6u16 (b : List Nat) (i : Nat) : Nat :=
  b.getD (2 * i) 0 * 256 + b.getD (2 * i + 1) 0

/-- Length of the run of zero groups starting at group `i` (among `fuel`
groups). -/
def zeroRun (b : List Nat) : Nat → Nat → Nat
  | 0, _ => 0
  | fuel + 1, i => if i < 8 ∧ v6u16 b i = 0 then zeroRun b fuel (i + 1) + 1 else 0

/-- First loop of `netip.Addr.appendTo6`: the longest run of at least two
zero groups, as `(zeroStart, zeroEnd)`, `(255, 255)` when there is none. -/
def zeroSpan (b : List Nat) : Nat × Nat :=
  (List.range 8).foldl (fun z i =>
    let l := zeroRun b 8 i
    if l ≥ 2 ∧ l > z.2 - z.1 then (i, i + l) else z) (255, 255)

/-- Second loop of `netip.Addr.appendTo6`: the colon-separated text of a
16-byte address, the longest zero run written as `::`. -/
def string6 (b : List Nat) : String :=
  let z := zeroSpan b
  (List.range 8).foldl (fun ret i =>
    if z.1 ≤ i ∧ i < z.2 then (if i = z.1 then ret ++ "::" else ret)
    else if i = z.2 ∧ z.1 < z.2 then ret ++ appendHex (v6u16 b i)
    else if i > 0 then ret ++ ":" ++ appendHex (v6u16 b i)
    else ret ++ appendHex (v6u16 b i)) ""

/-- Go `IP.String`: `<nil>` for an empty slice, `?` and the bytes in
hexadecimal for a length other than 4 or 16, dotted decimal for an IPv4
address, the IPv6 text otherwise. -/
def IP.String (ip : IP) : String :=
  if ip.len = 0 then "<nil>"
  else if ip.len ≠ IPv4len ∧ ip.len ≠ IPv6len then "?" ++ hexString ip.bytes
  else
    match ip.To4 with
    | some [a, b, c, d] => ubtoa a ++ "." ++ ubtoa b ++ "." ++ ubtoa c ++ "." ++ ubtoa d
    | _ => string6 ip.bytes

/-- Go `net.Addr`, by dynamic type: `*net.IPNet`, `*net.IPAddr` (an address
and a zone), or any other implementation (its network name and text). -/
inductive Addr where
  | IPNet (v : IPNet)
  | IPAddr (IP : IP) (Zone : String)
  | other (network text : String)
  deriving DecidableEq, Repr

/-- Flag `net.FlagUp`, bit 0 of `net.Flags`. -/
def FlagUp : Nat := 1

/-- Flag `net.FlagLoopback`, bit 2 of `net.Flags`. -/
def FlagLoopback : Nat := 4

end net

/-! ## Errors -/

/-- A Go `error` value: one reported by the operating system, one wrapped by
`perrors.WithStack`, or one made by `perrors.Errorf`. -/
inductive Error where
  | sys (msg : String)
  | WithStack (cause : Error)
  | Errorf (msg : String)
  deriving DecidableEq, Repr

namespace net

/-- Go `net.Interface` as `GetLocalIP` sees it: name, flags, and what the call
`face.Addrs()` answers (the address list, or an error). -/
structure Interface where
  Name : String
  Flags : Nat
  Addrs : Except Error (List Addr)

end net

namespace utils

/-! ## `common/utils/net.go` -/

open net

/-- Function `init`: the value of `privateBlocks` after the loop over the three
CIDR literals, each appended when `net.ParseCIDR` returns no error. -/
def init : List IPNet :=
  ["10.0.0.0/8", "172.16.0.0/12", "192.168.0.0/16"].foldl
    (fun privateBlocks b =>
      match ParseCIDR b with
      | some (_, block) => privateBlocks ++ [block]
      | none => privateBlocks) []

/-- Package variable `privateBlocks`, as `init` leaves it. -/
def privateBlocks : List IPNet := init

/-- The loop of `isPrivateIP` over a list of blocks. -/
def isPrivateIPIn : List IPNet → IP → Bool
  | [], _ => false
  | priv :: rest, ip => if priv.Contains ip then true else isPrivateIPIn rest ip

/-- Function `isPrivateIP`. -/
def isPrivateIP (ip : IP) : Bool :=
  isPrivateIPIn privateBlocks ip

/-- The type switch of `getValidIPv4`: the `IP` field of an `*net.IPNet` or
`*net.IPAddr`, nil for any other address type. -/
def addrIP (addr : Addr) : IP :=
  match addr with
  | .IPNet v => v.IP
  | .IPAddr ip _ => ip
  | .other _ _ => none

/-- Function `getValidIPv4`. -/
def getValidIPv4 : List Addr → IP × Bool
  | [] => (none, false)
  | addr :: addrs =>
    let ip := addrIP addr
    if ip = none ∨ ip.IsLoopback = true then getValidIPv4 addrs
    else if ip.To4 = none then getValidIPv4 addrs
    else (ip.To4, true)

/-- The loop of `GetLocalIP` over the interfaces, from the current values of
`privateIpv4Addr` and `ipv4Addr`.  The result is the pair of both variables
after the loop, or the error of the early return; with it comes the list of
the interfaces on which `face.Addrs()` was called, in call order. -/
def scanFaces : List Interface → IP → IP → List Interface × Except Error (IP × IP)
  | [], privateIpv4Addr, ipv4Addr => ([], .ok (privateIpv4Addr, ipv4Addr))
  | face :: faces, privateIpv4Addr, ipv4Addr =>
    if face.Flags &&& FlagUp = 0 then scanFaces faces privateIpv4Addr ipv4Addr
    else if face.Flags &&& FlagLoopback ≠ 0 then scanFaces faces privateIpv4Addr ipv4Addr
    else if strings.Contains (strings.ToLower face.Name) "docker" = true then
      scanFaces faces privateIpv4Addr ipv4Addr
    else
      match face.Addrs with
      | .error err => ([face], .error (.WithStack err))
      | .ok addrs =>
        let r :=
          if (getValidIPv4 addrs).2 = true then
            scanFaces faces
              (if isPrivateIP (getValidIPv4 addrs).1 = true then (getValidIPv4 addrs).1
               else privateIpv4Addr)
              (getValidIPv4 addrs).1
          else scanFaces faces privateIpv4Addr ipv4Addr
        (face :: r.1, r.2)

/-- Function `GetLocalIP`, given what `net.Interfaces()` answers; with the Go
result pair comes the list of interfaces whose addresses were queried. -/
def GetLocalIPTraced (sys : Except Error (List Interface)) :
    List Interface × (String × Option Error) :=
  match sys with
  | .error err => ([], ("", some (.WithStack err)))
  | .ok faces =>
    match scanFaces faces none none with
    | (queried, .error err) => (queried, ("", some err))
    | (queried, .ok (privateIpv4Addr, ipv4Addr)) =>
      if ipv4Addr = none then (queried, ("", some (.Errorf "can not get local IP")))
      else if privateIpv4Addr = none then (queried, (ipv4Addr.String, none))
      else (queried, (privateIpv4Addr.String, none))

/-- Function `GetLocalIP`: the Go result pair `(string, error)`. -/
def GetLocalIP (sys : Except Error (List Interface)) : String × Option Error :=
  (GetLocalIPTraced sys).2

/-- The interfaces on which `GetLocalIP` calls `face.Addrs()`, in order. -/
def queriedFaces (sys : Except Error (List Interface)) : List Interface :=
  (GetLocalIPTraced sys).1

/-! ### Vocabulary of the properties -/

/-- An interface that passes the three filters at the head of the loop of
`GetLocalIP`: it is up, it is not a loopback interface, and its lower-cased
name does not contain "docker". -/
def eligible (face : Interface) : Bool :=
  face.Flags &&& FlagUp ≠ 0 ∧ face.Flags &&& FlagLoopback = 0
    ∧ strings.Contains (strings.ToLower face.Name) "docker" = false

/-- A non-loopback IPv4 address: an `*net.IPNet` or `*net.IPAddr` whose IP is
not nil, is not a loopback address and converts to four bytes. -/
def usableIPv4 (addr : Addr) : Bool :=
  addrIP addr ≠ none ∧ (addrIP addr).IsLoopback = false ∧ (addrIP addr).To4 ≠ none

/-- Dotted-decimal text `a.b.c.d` of four bytes. -/
def dotted (a b c d : Nat) : String :=
  ubtoa a ++ "." ++ ubtoa b ++ "." ++ ubtoa c ++ "." ++ ubtoa d

/-- Membership of the three private ranges 10.0.0.0/8, 172.16.0.0/12 and
192.168.0.0/16, on the first two bytes of an address. -/
def inPrivateRange (a b : Nat) : Prop :=
  a = 10 ∨ (a = 172 ∧ 16 ≤ b ∧ b ≤ 31) ∨ (a = 192 ∧ b = 168)

/-- The character `c` is the lower-case ASCII letter `x` or its upper-case
form. -/
def sameLetter (c x : Char) : Bool :=
  c == x || c.toNat + 32 == x.toNat

/-- The text `mid` spells the lower-case word `word` letter by letter, each
letter in either case. -/
def spellsAnyCase : List Char → List Char → Bool
  | [], [] => true
  | c :: mid, x :: word => sameLetter c x && spellsAnyCase mid word
  | _, _ => false

/-- The address `ip` is the one `getValidIPv4` selects for some eligible
interface of the list whose address enumeration succeeds. -/
def Picked (faces : List Interface) (ip : IP) : Prop :=
  ∃ face ∈ faces, eligible face = true
    ∧ ∃ addrs, face.Addrs = .ok addrs ∧ getValidIPv4 addrs = (ip, true)

/-! ### Sample interfaces -/

/-- An Ethernet interface that is up (flags up, broadcast, multicast) and
carries the public address 8.8.8.8/24 followed by the private address
10.0.0.1/8. -/
def ethPublicThenPrivate : Interface :=
  { Name := "eth0", Flags := 19,
    Addrs := .ok [.IPNet ⟨some [8, 8, 8, 8], [255, 255, 255, 0]⟩,
      .IPNet ⟨some [10, 0, 0, 1], [255, 0, 0, 0]⟩] }

/-- An interface that is up, with an IPv6 link-local address and then the
private address 192.168.1.7/24. -/
def ethPrivate : Interface :=
  { Name := "en0", Flags := 19,
    Addrs := .ok [.IPNet ⟨some [0xfe, 0x80, 0, 0, 0, 0, 0, 0, 0, 0, 0, 0, 0, 0, 0, 1],
        [255, 255, 255, 255, 255, 255, 255, 255, 0, 0, 0, 0, 0, 0, 0, 0]⟩,
      .IPNet ⟨some [192, 168, 1, 7], [255, 255, 255, 0]⟩] }

/-- A docker bridge that is up and whose address enumeration fails. -/
def dockerBroken : Interface :=
  { Name := "Docker0", Flags := 19, Addrs := .error (.sys "route ip+net: no such network interface") }

/-- The loopback interface `lo` (flags up, loopback) with 127.0.0.1/8. -/
def loopbackFace : Interface :=
  { Name := "lo", Flags := 5, Addrs := .ok [.IPNet ⟨some [127, 0, 0, 1], [255, 0, 0, 0]⟩] }

/-- An interface that is up with the single address 10.0.0.1/8. -/
def ethTen : Interface :=
  { Name := "eth0", Flags := 19, Addrs := .ok [.IPNet ⟨some [10, 0, 0, 1], [255, 0, 0, 0]⟩] }

/-- An interface that is up with the single address 192.168.1.1/24. -/
def ethHome : Interface :=
  { Name := "eth1", Flags := 19,
    Addrs := .ok [.IPNet ⟨some [192, 168, 1, 1], [255, 255, 255, 0]⟩] }

/-- An interface that is up with the single public address 8.8.8.8/24. -/
def ethPublic : Interface :=
  { Name := "eth2", Flags := 19, Addrs := .ok [.IPNet ⟨some [8, 8, 8, 8], [255, 255, 255, 0]⟩] }

/-- An interface that is up, not loopback and not docker-named, whose address
enumeration fails. -/
def ethBroken : Interface :=
  { Name := "eth3", Flags := 19, Addrs := .error (.sys "route ip+net: invalid network interface") }

/-! ### The selection rule in the words of its description -/

/-- The candidate of one interface: the address `getValidIPv4` returns for it,
when the interface is eligible, its address enumeration succeeds and the
search succeeds. -/
def candidate (face : Interface) : Option IP :=
  if eligible face = true then
    match face.Addrs with
    | .ok addrs => if (getValidIPv4 addrs).2 = true then some (getValidIPv4 addrs).1 else none
    | .error _ => none
  else none

/-- The candidates of a list of interfaces, in enumeration order. -/
def candidates (faces : List Interface) : List IP :=
  faces.filterMap candidate

/-- The rule "last private candidate, otherwise last candidate, otherwise the
error", as a function of the list of candidates. -/
def selectLastMatch (cands : List IP) : String × Option Error :=
  match (cands.filter isPrivateIP).getLast? with
  | some ip => (ip.String, none)
  | none =>
    match cands.getLast? with
    | some ip => (ip.String, none)
    | none => ("", some (.Errorf "can not get local IP"))

end utils

namespace remoting

/-! ## `remoting/listener.go` -/

/-- Go `type EventType int`. -/
abbrev EventType := Int

/-- Constant `EventTypeAdd = iota`. -/
def EventTypeAdd : EventType := 0

/-- Constant `EventTypeDel`, the second `iota`. -/
def EventTypeDel : EventType := 1

/-- Constant `EventTypeUpdate`, the third `iota`. -/
def EventTypeUpdate : EventType := 2

/-- The table `serviceEventTypeStrings = [...]string{"add", "delete", "update"}`. -/
def serviceEventTypeStrings : List String := ["add", "delete", "update"]

/-- Method `func (t EventType) String() string`: the table indexed by `t`. -/
def EventType.String (t : EventType) : Outcome String :=
  index serviceEventTypeStrings t

/-- Go `type Event struct { Path string; Action EventType; Content string }`. -/
structure Event where
  Path : String
  Action : EventType
  Content : String
  deriving DecidableEq, Repr

/-- What `fmt` writes for a `%s` operand that implements `Stringer`: the text
its `String` method returns, and when that method panics the panic is
recovered by `fmt` and reported inline as `%!s(PANIC=String method: ...)`. -/
def fmtStringer (r : Outcome String) : String :=
  match r with
  | .ret s => s
  | .panic msg => "%!s(PANIC=String method: " ++ msg ++ ")"

/-- Method `func (e Event) String() string`, that is
`fmt.Sprintf("Event{Action{%s}, Content{%s}}", e.Action, e.Content)`. -/
def Event.String (e : Event) : String :=
  "Event\x7bAction\x7b" ++ fmtStringer (EventType.String e.Action)
    ++ "\x7d, Content\x7b" ++ e.Content ++ "\x7d\x7d"

/-! ## The dispatcher of the change-event contract -/

/-- Go `type DataListener interface { DataChange(eventType Event) bool }`, as
one implementation: `id` is the identity of the listener value and
`DataChange` is what a call answers, a boolean or a panic. -/
structure DataListener where
  id : Nat
  DataChange : Event → Outcome Bool

/-- Modelled from the spec: the errors of the dispatcher, which the source
files do not contain; the only one its operations raise here is the
invalid-argument error for an empty path. -/
inductive DispatchError where
  | InvalidArgument
  deriving DecidableEq, Repr

/-- Modelled from the spec: the dispatcher, which the source files do not
contain (they declare only `DataListener` and `Event`). It holds the
registrations `(path, listener)` in registration order; the listeners of a
path are its ordered set of listeners. -/
structure Dispatcher where
  registry : List (String × DataListener)

/-- Modelled from the spec: the listeners registered for the exact path
`path`, in registration order (the dispatcher is missing from the source
files). -/
def Dispatcher.listeners (d : Dispatcher) (path : String) : List DataListener :=
  (d.registry.filter fun r => r.1 = path).map fun r => r.2

/-- Modelled from the spec: `Subscribe(path, listener)` of the dispatcher
missing from the source files. An empty path fails with the invalid-argument
error; a listener already registered for the path is not registered again
(de-duplication by listener identity); otherwise the registration is added
after the existing ones. -/
def Dispatcher.Subscribe (d : Dispatcher) (path : String) (listener : DataListener) :
    Except DispatchError Dispatcher :=
  if path = "" then .error .InvalidArgument
  else if (d.listeners path).any (fun l => l.id = listener.id) = true then .ok d
  else .ok { registry := d.registry ++ [(path, listener)] }

/-- Modelled from the spec: `Unsubscribe(path, listener)` of the dispatcher
missing from the source files. An empty path fails with the invalid-argument
error; the registration is removed, and nothing happens when there is
none. -/
def Dispatcher.Unsubscribe (d : Dispatcher) (path : String) (listener : DataListener) :
    Except DispatchError Dispatcher :=
  if path = "" then .error .InvalidArgument
  else .ok { registry := d.registry.filter fun r => ¬ (r.1 = path ∧ r.2.id = listener.id) }

/-- One invocation of `DataChange` made by a `Notify`: the listener called,
the Event passed, and the advisory result as the dispatcher records it. -/
structure Call where
  listener : Nat
  event : Event
  handled : Bool
  deriving DecidableEq, Repr

/-- Modelled from the spec: the result the dispatcher (missing from the source
files) records for one invocation: the boolean the listener returns, and
`false` when the listener raises. -/
def handledBy (l : DataListener) (e : Event) : Bool :=
  match l.DataChange e with
  | .ret b => b
  | .panic _ => false

/-- Modelled from the spec: `Notify(event)` of the dispatcher missing from the
source files. An Event with an empty path is malformed input and fails with
the invalid-argument error; otherwise `DataChange` is invoked with the Event
on every listener registered for `event.Path`, in registration order,
whatever the earlier listeners return or raise. The result is the sequence of
invocations made, empty when no listener is registered. -/
def Dispatcher.Notify (d : Dispatcher) (e : Event) : Except DispatchError (List Call) :=
  if e.Path = "" then .error .InvalidArgument
  else .ok ((d.listeners e.Path).map fun l => ⟨l.id, e, handledBy l e⟩)

/-- A listener that finds every Event interesting. -/
def listenerYes (id : Nat) : DataListener :=
  { id := id, DataChange := fun _ => .ret true }

/-- A listener that finds no Event interesting. -/
def listenerNo (id : Nat) : DataListener :=
  { id := id, DataChange := fun _ => .ret false }

/-- A listener that raises on every Event. -/
def listenerRaises (id : Nat) : DataListener :=
  { id := id, DataChange := fun _ => .panic "listener failure" }

end remoting

/-! ## Properties of `remoting/listener.go` -/

namespace remoting

/-- The table lookup at a natural-number index below 3 returns the entry. -/
theorem EventType.String_ofNat_lt (n : Nat) (h : n < 3) :
    ∃ s, EventType.String (n : Int) = .ret s := by
  interval_cases n
  · exact ⟨"add", by decide⟩
  · exact ⟨"delete", by decide⟩
  · exact ⟨"update", by decide⟩

/-- The table lookup outside `0..2` panics with the bounds error. -/
theorem EventType.String_out_of_range (t : Int) (h : t < 0 ∨ 3 ≤ t) :
    EventType.String t = .panic (boundsErrorText t 3) := by
  unfold EventType.String index
  by_cases h0 : 0 ≤ t
  · have h3 : 3 ≤ t := by omega
    obtain ⟨n, rfl⟩ := Int.eq_ofNat_of_zero_le h0
    have hn : 3 ≤ n := by omega
    have hget : serviceEventTypeStrings.get? n = none := by
      apply List.get?_eq_none.mpr
      simpa [serviceEventTypeStrings] using hn
    rw [if_pos h0, Int.toNat_ofNat, hget]
    rfl
  · rw [if_neg h0]
    rfl

/-- C1: the event-type constants are 0, 1 and 2, and `EventType.String` returns
the fixed literal for each of them: "add" for 0, "delete" for 1, "update" for
2, three pairwise distinct strings. -/
theorem eventType_constants_and_literals :
    EventTypeAdd = 0 ∧ EventTypeDel = 1 ∧ EventTypeUpdate = 2
    ∧ EventType.String EventTypeAdd = .ret "add"
    ∧ EventType.String EventTypeDel = .ret "delete"
    ∧ EventType.String EventTypeUpdate = .ret "update"
    ∧ EventType.String 0 = .ret "add"
    ∧ EventType.String 1 = .ret "delete"
    ∧ EventType.String 2 = .ret "update"
    ∧ "add" ≠ "delete" ∧ "add" ≠ "update" ∧ "delete" ≠ "update" := by
  decide

/-- C2: `EventType.String` returns a string exactly when `0 ≤ t ≤ 2`; for every
other `t` (negative, or 3 and above) it panics with the index-out-of-range
run-time error and returns nothing. -/
theorem eventType_string_returns_iff_in_range (t : Int) :
    ((∃ s, EventType.String t = .ret s) ↔ (0 ≤ t ∧ t ≤ 2))
    ∧ ((t < 0 ∨ 3 ≤ t) ↔ EventType.String t = .panic (boundsErrorText t 3))
    ∧ ((t < 0 ∨ 3 ≤ t) ↔ ¬ ∃ s, EventType.String t = .ret s) := by
  have hin : (0 ≤ t ∧ t ≤ 2) → ∃ s, EventType.String t = .ret s := by
    intro ⟨h0, h2⟩
    obtain ⟨n, rfl⟩ := Int.eq_ofNat_of_zero_le h0
    exact EventType.String_ofNat_lt n (by omega)
  have hout : (t < 0 ∨ 3 ≤ t) → EventType.String t = .panic (boundsErrorText t 3) :=
    EventType.String_out_of_range t
  refine ⟨⟨?_, hin⟩, ⟨hout, ?_⟩, ⟨?_, ?_⟩⟩
  · rintro ⟨s, hs⟩
    by_contra hc
    have := hout (by omega)
    rw [this] at hs
    cases hs
  · intro hp
    by_contra hc
    obtain ⟨s, hs⟩ := hin (by omega)
    rw [hs] at hp
    cases hp
  · rintro h ⟨s, hs⟩
    rw [hout h] at hs
    cases hs
  · intro hno
    by_contra hc
    exact hno (hin (by omega))

/-- C8: for an Event whose Action is 0, 1 or 2, `Event.String` is the text
`Event{Action{` then the action's literal then `}, Content{` then the content
then `}}`, whatever the path; an Update with content "x" renders as
`Event{Action{update}, Content{x}}`. -/
theorem event_string_format (e : Event) (h : (0 : Int) ≤ e.Action ∧ e.Action ≤ (2 : Int)) :
    (∃ s, EventType.String e.Action = .ret s
      ∧ Event.String e = "Event\x7bAction\x7b" ++ s ++ "\x7d, Content\x7b" ++ e.Content ++ "\x7d\x7d")
    ∧ Event.String ⟨e.Path, EventTypeUpdate, "x"⟩ = "Event\x7bAction\x7bupdate\x7d, Content\x7bx\x7d\x7d" := by
  refine ⟨?_, rfl⟩
  obtain ⟨n, hn⟩ := Int.eq_ofNat_of_zero_le h.1
  have h2 : (n : Int) ≤ 2 := hn ▸ h.2
  obtain ⟨s, hs⟩ := EventType.String_ofNat_lt n (by omega)
  refine ⟨s, ?_, ?_⟩
  · rw [hn]; exact hs
  · unfold Event.String
    rw [hn, hs]
    rfl

/-- Witness for C8: the Delete event of path "/services/foo" with content
"v1". -/
theorem event_string_format_witness :
    (∃ s, EventType.String (Event.mk "/services/foo" EventTypeDel "v1").Action = .ret s
      ∧ Event.String (Event.mk "/services/foo" EventTypeDel "v1")
        = "Event\x7bAction\x7b" ++ s ++ "\x7d, Content\x7b" ++ "v1" ++ "\x7d\x7d")
    ∧ Event.String ⟨"/services/foo", EventTypeUpdate, "x"⟩
        = "Event\x7bAction\x7bupdate\x7d, Content\x7bx\x7d\x7d" :=
  event_string_format (Event.mk "/services/foo" EventTypeDel "v1") (by decide)

/-- C9, counterexample: an Event with the empty path is an ordinary value. The
composite literal `Event{Path: "", Action: EventTypeDel, Content: ""}` has an
empty `Path` and renders like any other Event, so not every Event has a
non-empty path. -/
theorem event_empty_path_exists :
    (Event.mk "" EventTypeDel "").Path = ""
    ∧ Event.String (Event.mk "" EventTypeDel "") = "Event\x7bAction\x7bdelete\x7d, Content\x7b\x7d\x7d"
    ∧ ¬ (∀ e : Event, e.Path ≠ "") := by
  refine ⟨rfl, by decide, ?_⟩
  intro h
  exact h (Event.mk "" EventTypeDel "") rfl

/-- C9, amended: `Event` is a plain record without a validating constructor.
For every path, the empty one included, every action and every content the
composite literal is an Event whose three fields read back as given, and
rendering it returns a string. -/
theorem event_literal_unvalidated (path content : String) (action : EventType) :
    (∃ e : Event, e.Path = path ∧ e.Action = action ∧ e.Content = content)
    ∧ (∃ e : Event, e.Path = "" ∧ e.Action = action ∧ e.Content = content
        ∧ Event.String e = "Event\x7bAction\x7b" ++ fmtStringer (EventType.String action)
            ++ "\x7d, Content\x7b" ++ content ++ "\x7d\x7d") :=
  ⟨⟨⟨path, action, content⟩, rfl, rfl, rfl⟩, ⟨⟨"", action, content⟩, rfl, rfl, rfl, rfl⟩⟩

/-- C10: Event equality is structural. Two Events are equal exactly when
their paths, actions and contents are equal, the comparison `==` decides just
that, and an Event is determined by its three fields. -/
theorem event_equality_structural (e1 e2 : Event) :
    (e1 = e2 ↔ (e1.Path = e2.Path ∧ e1.Action = e2.Action ∧ e1.Content = e2.Content))
    ∧ (decide (e1 = e2) = true
        ↔ (e1.Path = e2.Path ∧ e1.Action = e2.Action ∧ e1.Content = e2.Content))
    ∧ e1 = Event.mk e1.Path e1.Action e1.Content := by
  have key : e1 = e2 ↔ (e1.Path = e2.Path ∧ e1.Action = e2.Action ∧ e1.Content = e2.Content) := by
    constructor
    · rintro rfl
      exact ⟨rfl, rfl, rfl⟩
    · intro ⟨hp, ha, hc⟩
      cases e1
      cases e2
      simp_all
  refine ⟨key, ?_, rfl⟩
  rw [decide_eq_true_iff]
  exact key

end remoting


/-! ## Properties of `common/utils/net.go` -/

namespace utils

open net

/-! ### The private blocks -/

/-- The table `init` builds, entry by entry. -/
theorem privateBlocks_eq :
    privateBlocks = [⟨some [10, 0, 0, 0], [255, 0, 0, 0]⟩, ⟨some [172, 16, 0, 0], [255, 240, 0, 0]⟩,
      ⟨some [192, 168, 0, 0], [255, 255, 0, 0]⟩] := by
  decide

/-- What `To4` returns has four bytes. -/
theorem To4_eq_some_length (ip : IP) (x : List Nat) (h : ip.To4 = some x) : x.length = 4 := by
  unfold IP.To4 at h
  split at h
  · next h4 =>
    subst h
    simpa [IP.len, IPv4len] using h4
  · split at h
    · next h16 =>
      cases h
      have hl : ip.bytes.length = 16 := by
        cases ip <;> simp_all [IP.len, IP.bytes, IPv6len]
      simp [hl]
    · cases h

/-- What `To4` returns is written with four byte variables. -/
theorem To4_eq_some_bytes (ip : IP) (x : List Nat) (h : ip.To4 = some x) :
    ∃ a b c d, x = [a, b, c, d] := by
  have hl := To4_eq_some_length ip x h
  match x, hl with
  | [a, b, c, d], _ => exact ⟨a, b, c, d, rfl⟩

/-- A 4-byte slice is its own 4-byte form. -/
theorem To4_four (a b c d : Nat) : IP.To4 (some [a, b, c, d]) = some [a, b, c, d] := by
  simp [IP.To4, IP.len, IPv4len]

/-- The 4-byte form of a 16-byte IPv4-mapped address is its last four bytes. -/
theorem To4_mapped (a b c d : Nat) :
    IP.To4 (some (v4InV6Prefix ++ [a, b, c, d])) = some [a, b, c, d] := by
  simp [IP.To4, IP.len, IP.bytes, IPv4len, IPv6len, v4InV6Prefix, isZeros]

/-- The test `Contains` looks at an address through its 4-byte form. -/
theorem contains_of_To4 (n : IPNet) (ip : IP) (a b c d : Nat) (h : ip.To4 = some [a, b, c, d]) :
    n.Contains ip = n.Contains (some [a, b, c, d]) := by
  simp [IPNet.Contains, h, To4_four]

/-- The test `Contains` for a 4-byte network and a 4-byte address: the bytes agree
under the mask. -/
theorem contains_v4 (n0 n1 n2 n3 m0 m1 m2 m3 a b c d : Nat) :
    IPNet.Contains ⟨some [n0, n1, n2, n3], [m0, m1, m2, m3]⟩ (some [a, b, c, d]) = true
      ↔ (n0 &&& m0 = a &&& m0 ∧ n1 &&& m1 = b &&& m1
        ∧ n2 &&& m2 = c &&& m2 ∧ n3 &&& m3 = d &&& m3) := by
  simp [IPNet.Contains, networkNumberAndMask, To4_four, IP.len, IP.bytes, IPv4len, IPv6len,
    List.range_succ]

/-- Masking a byte with `0xff` keeps it. -/
theorem and_255 (a : Nat) (h : a < 256) : a &&& 255 = a := by
  have := Nat.and_pow_two_sub_one_eq_mod a 8
  simpa [Nat.mod_eq_of_lt h] using this

set_option maxRecDepth 100000 in
/-- Masking a byte with `0xf0` gives 16 exactly on 16..31. -/
theorem and_240 : ∀ b : Nat, b < 256 → (b &&& 240 = 16 ↔ (16 ≤ b ∧ b ≤ 31)) := by
  decide

/-- The value of `isPrivateIP` on an address whose 4-byte form is `a.b.c.d`. -/
theorem isPrivateIP_of_To4 (ip : IP) (a b c d : Nat) (h : ip.To4 = some [a, b, c, d])
    (ha : a < 256) (hb : b < 256) :
    isPrivateIP ip = true ↔ inPrivateRange a b := by
  rw [isPrivateIP, privateBlocks_eq]
  simp only [isPrivateIPIn, contains_of_To4 _ ip a b c d h]
  have e240 := and_240 b hb
  have h1 : IPNet.Contains ⟨some [10, 0, 0, 0], [255, 0, 0, 0]⟩ (some [a, b, c, d]) = true
      ↔ a = 10 := by
    rw [contains_v4]
    have l10 : (10 : Nat) &&& 255 = 10 := by decide
    simp only [l10, and_255 a ha, Nat.and_zero, and_true]
    constructor <;> intro hh <;> omega
  have h2 : IPNet.Contains ⟨some [172, 16, 0, 0], [255, 240, 0, 0]⟩ (some [a, b, c, d]) = true
      ↔ (a = 172 ∧ 16 ≤ b ∧ b ≤ 31) := by
    rw [contains_v4, ← e240]
    have l172 : (172 : Nat) &&& 255 = 172 := by decide
    have l16 : (16 : Nat) &&& 240 = 16 := by decide
    simp only [l172, l16, and_255 a ha, Nat.and_zero, and_true]
    constructor <;> intro hh <;> omega
  have h3 : IPNet.Contains ⟨some [192, 168, 0, 0], [255, 255, 0, 0]⟩ (some [a, b, c, d]) = true
      ↔ (a = 192 ∧ b = 168) := by
    rw [contains_v4]
    have l192 : (192 : Nat) &&& 255 = 192 := by decide
    have l168 : (168 : Nat) &&& 255 = 168 := by decide
    simp only [l192, l168, and_255 a ha, and_255 b hb, Nat.and_zero, and_true]
    constructor <;> intro hh <;> omega
  unfold inPrivateRange
  rw [← h1, ← h2, ← h3]
  by_cases c1 : IPNet.Contains ⟨some [10, 0, 0, 0], [255, 0, 0, 0]⟩ (some [a, b, c, d]) = true
    <;> by_cases c2 :
      IPNet.Contains ⟨some [172, 16, 0, 0], [255, 240, 0, 0]⟩ (some [a, b, c, d]) = true
    <;> by_cases c3 :
      IPNet.Contains ⟨some [192, 168, 0, 0], [255, 255, 0, 0]⟩ (some [a, b, c, d]) = true
    <;> simp [c1, c2, c3]

/-- C7: the table built by `init` holds exactly the blocks 10.0.0.0/8,
172.16.0.0/12 and 192.168.0.0/16 (masks `CIDRMask 8`, `12`, `16`), and for
every IPv4 address `a.b.c.d`, in 4-byte or in 16-byte IPv4-mapped form,
`isPrivateIP` is true if and only if `a = 10`, or `a = 172` and
`16 ≤ b ≤ 31`, or `a = 192` and `b = 168`; so 172.15.x.x, 172.32.x.x,
11.x.x.x, 192.167.x.x and 192.169.x.x are not private. -/
theorem isPrivateIP_exact (a b c d : Nat) (ha : a < 256) (hb : b < 256) (_hc : c < 256)
    (_hd : d < 256) :
    (init = [⟨some [10, 0, 0, 0], [255, 0, 0, 0]⟩, ⟨some [172, 16, 0, 0], [255, 240, 0, 0]⟩,
        ⟨some [192, 168, 0, 0], [255, 255, 0, 0]⟩]
      ∧ privateBlocks = init
      ∧ CIDRMask 8 32 = some [255, 0, 0, 0] ∧ CIDRMask 12 32 = some [255, 240, 0, 0]
      ∧ CIDRMask 16 32 = some [255, 255, 0, 0])
    ∧ (isPrivateIP (some [a, b, c, d]) = true
        ↔ (a = 10 ∨ (a = 172 ∧ 16 ≤ b ∧ b ≤ 31) ∨ (a = 192 ∧ b = 168)))
    ∧ (isPrivateIP (some (v4InV6Prefix ++ [a, b, c, d])) = true
        ↔ (a = 10 ∨ (a = 172 ∧ 16 ≤ b ∧ b ≤ 31) ∨ (a = 192 ∧ b = 168)))
    ∧ isPrivateIP (some [172, 15, c, d]) = false
    ∧ isPrivateIP (some [172, 32, c, d]) = false
    ∧ isPrivateIP (some [11, b, c, d]) = false
    ∧ isPrivateIP (some [192, 167, c, d]) = false
    ∧ isPrivateIP (some [192, 169, c, d]) = false := by
  have neg : ∀ x y : Nat, x < 256 → y < 256 → ¬ inPrivateRange x y →
      isPrivateIP (some [x, y, c, d]) = false := by
    intro x y hx hy hn
    cases hp : isPrivateIP (some [x, y, c, d])
    · rfl
    · exact absurd ((isPrivateIP_of_To4 _ x y c d (To4_four x y c d) hx hy).mp hp) hn
  refine ⟨⟨by decide, rfl, by decide, by decide, by decide⟩,
    isPrivateIP_of_To4 _ a b c d (To4_four a b c d) ha hb,
    isPrivateIP_of_To4 _ a b c d (To4_mapped a b c d) ha hb, ?_, ?_, ?_, ?_, ?_⟩
  · exact neg 172 15 (by decide) (by decide) (by unfold inPrivateRange; omega)
  · exact neg 172 32 (by decide) (by decide) (by unfold inPrivateRange; omega)
  · exact neg 11 b (by decide) hb (by unfold inPrivateRange; omega)
  · exact neg 192 167 (by decide) (by decide) (by unfold inPrivateRange; omega)
  · exact neg 192 169 (by decide) (by decide) (by unfold inPrivateRange; omega)

/-- Witness for C7: the address 172.31.255.254, the top of the second block. -/
theorem isPrivateIP_exact_witness :
    isPrivateIP (some [172, 31, 255, 254]) = true
      ↔ ((172 : Nat) = 10 ∨ ((172 : Nat) = 172 ∧ 16 ≤ 31 ∧ 31 ≤ 31) ∨ ((172 : Nat) = 192 ∧ (31 : Nat) = 168)) :=
  (isPrivateIP_exact 172 31 255 254 (by decide) (by decide) (by decide) (by decide)).2.1

end utils


namespace utils

open net

/-! ### `getValidIPv4` -/

/-- An address the test of `getValidIPv4` rejects is skipped. -/
theorem getValidIPv4_cons_skip (addr : Addr) (addrs : List Addr) (h : usableIPv4 addr = false) :
    getValidIPv4 (addr :: addrs) = getValidIPv4 addrs := by
  simp only [usableIPv4, decide_eq_false_iff_not, not_and_or, not_not, ne_eq,
    Bool.not_eq_false] at h
  rw [getValidIPv4]
  rcases h with h | h | h
  · simp [h]
  · simp [h]
  · by_cases h1 : addrIP addr = none ∨ (addrIP addr).IsLoopback = true
    · simp [h1]
    · simp [h1, h]

/-- An address the test of `getValidIPv4` accepts is returned in 4-byte form. -/
theorem getValidIPv4_cons_take (addr : Addr) (addrs : List Addr) (h : usableIPv4 addr = true) :
    getValidIPv4 (addr :: addrs) = ((addrIP addr).To4, true) := by
  simp only [usableIPv4, decide_eq_true_eq, ne_eq] at h
  rw [getValidIPv4]
  simp [h.1, h.2.1, h.2.2]

/-- The search fails exactly when no address is usable, and then returns nil. -/
theorem getValidIPv4_eq_false (addrs : List Addr) (h : ∀ addr ∈ addrs, usableIPv4 addr = false) :
    getValidIPv4 addrs = (none, false) := by
  induction addrs with
  | nil => rfl
  | cons addr addrs ih =>
    rw [getValidIPv4_cons_skip addr addrs (h addr (List.mem_cons_self _ _))]
    exact ih fun x hx => h x (List.mem_cons_of_mem _ hx)

/-- The search returns the first usable address. -/
theorem getValidIPv4_first (pre post : List Addr) (addr : Addr)
    (hpre : ∀ x ∈ pre, usableIPv4 x = false) (h : usableIPv4 addr = true) :
    getValidIPv4 (pre ++ addr :: post) = ((addrIP addr).To4, true) := by
  induction pre with
  | nil => exact getValidIPv4_cons_take addr post h
  | cons x pre ih =>
    rw [List.cons_append, getValidIPv4_cons_skip x _ (hpre x (List.mem_cons_self _ _))]
    exact ih fun y hy => hpre y (List.mem_cons_of_mem _ hy)

/-- A successful search returned the 4-byte form of a usable address of the
list. -/
theorem getValidIPv4_true (addrs : List Addr) (h : (getValidIPv4 addrs).2 = true) :
    ∃ addr ∈ addrs, usableIPv4 addr = true ∧ (getValidIPv4 addrs).1 = (addrIP addr).To4 := by
  induction addrs with
  | nil => simp [getValidIPv4] at h
  | cons addr addrs ih =>
    cases hu : usableIPv4 addr
    · rw [getValidIPv4_cons_skip addr addrs hu] at h ⊢
      obtain ⟨x, hx, hux, hex⟩ := ih h
      exact ⟨x, List.mem_cons_of_mem _ hx, hux, hex⟩
    · rw [getValidIPv4_cons_take addr addrs hu]
      exact ⟨addr, List.mem_cons_self _ _, hu, rfl⟩

/-- The search succeeds exactly when some address of the list is usable. -/
theorem getValidIPv4_true_iff (addrs : List Addr) :
    (getValidIPv4 addrs).2 = true ↔ ∃ addr ∈ addrs, usableIPv4 addr = true := by
  constructor
  · intro h
    obtain ⟨x, hx, hux, _⟩ := getValidIPv4_true addrs h
    exact ⟨x, hx, hux⟩
  · rintro ⟨x, hx, hux⟩
    cases hr : (getValidIPv4 addrs).2
    · exfalso
      have hall : ∀ addr ∈ addrs, usableIPv4 addr = false := by
        intro y hy
        cases hy2 : usableIPv4 y
        · rfl
        · exfalso
          obtain ⟨pre, post, rfl⟩ := List.append_of_mem hy
          clear hx hy
          induction pre with
          | nil =>
            rw [List.nil_append, getValidIPv4_cons_take y post hy2] at hr
            cases hr
          | cons z pre ih =>
            cases hz : usableIPv4 z
            · rw [List.cons_append, getValidIPv4_cons_skip z _ hz] at hr
              exact ih hr
            · rw [List.cons_append, getValidIPv4_cons_take z _ hz] at hr
              cases hr
      rw [hall x hx] at hux
      cases hux
    · rfl

/-- The 4-byte form of a usable address is `a.b.c.d` with `a` other than 127. -/
theorem usableIPv4_bytes (addr : Addr) (h : usableIPv4 addr = true) :
    ∃ a b c d, (addrIP addr).To4 = some [a, b, c, d] ∧ a ≠ 127 := by
  simp only [usableIPv4, decide_eq_true_eq, ne_eq] at h
  obtain ⟨_, hloop, h4⟩ := h
  cases hx : (addrIP addr).To4 with
  | none => exact absurd hx h4
  | some x =>
    obtain ⟨a, b, c, d, rfl⟩ := To4_eq_some_bytes _ x hx
    refine ⟨a, b, c, d, rfl, ?_⟩
    intro ha
    simp [IP.IsLoopback, hx, ha] at hloop

end utils

namespace utils

open net

/-! ### The loop of `GetLocalIP` -/

/-- An interface is rejected by the filters exactly when it is down, is a
loopback interface, or has "docker" in its lower-cased name. -/
theorem eligible_eq_false_iff (face : Interface) :
    eligible face = false ↔ (face.Flags &&& FlagUp = 0 ∨ face.Flags &&& FlagLoopback ≠ 0
      ∨ strings.Contains (strings.ToLower face.Name) "docker" = true) := by
  unfold eligible
  rw [decide_eq_false_iff_not]
  constructor
  · intro h
    by_contra hc
    simp only [not_or, ne_eq, not_not, Bool.not_eq_true] at hc
    exact h ⟨hc.1, hc.2.1, hc.2.2⟩
  · rintro (h | h | h) ⟨h1, h2, h3⟩
    · exact h1 h
    · exact h h2
    · rw [h] at h3
      cases h3

/-- The loop passes over a rejected interface without any effect. -/
theorem scanFaces_cons_skip (face : Interface) (faces : List Interface) (p i : IP)
    (h : eligible face = false) :
    scanFaces (face :: faces) p i = scanFaces faces p i := by
  rw [scanFaces]
  rcases (eligible_eq_false_iff face).mp h with h | h | h
  · simp [h]
  · by_cases h1 : face.Flags &&& FlagUp = 0
    · rw [if_pos h1]
    · rw [if_neg h1, if_pos h]
  · by_cases h1 : face.Flags &&& FlagUp = 0
    · rw [if_pos h1]
    · by_cases h2 : face.Flags &&& FlagLoopback ≠ 0
      · rw [if_neg h1, if_pos h2]
      · rw [if_neg h1, if_neg h2, if_pos h]

/-- The loop stops at an eligible interface whose address enumeration fails. -/
theorem scanFaces_cons_error (face : Interface) (faces : List Interface) (p i : IP)
    (h : eligible face = true) (err : Error) (he : face.Addrs = .error err) :
    scanFaces (face :: faces) p i = ([face], .error (.WithStack err)) := by
  simp only [eligible, decide_eq_true_eq, ne_eq] at h
  rw [scanFaces]
  simp [h.1, h.2.1, h.2.2, he]

/-- The step of the loop at an eligible interface whose addresses are
`addrs`. -/
theorem scanFaces_cons_ok (face : Interface) (faces : List Interface) (p i : IP)
    (h : eligible face = true) (addrs : List Addr) (he : face.Addrs = .ok addrs) :
    scanFaces (face :: faces) p i =
      (face :: (if (getValidIPv4 addrs).2 = true then
          scanFaces faces
            (if isPrivateIP (getValidIPv4 addrs).1 = true then (getValidIPv4 addrs).1 else p)
            (getValidIPv4 addrs).1
        else scanFaces faces p i).1,
       (if (getValidIPv4 addrs).2 = true then
          scanFaces faces
            (if isPrivateIP (getValidIPv4 addrs).1 = true then (getValidIPv4 addrs).1 else p)
            (getValidIPv4 addrs).1
        else scanFaces faces p i).2) := by
  simp only [eligible, decide_eq_true_eq, ne_eq] at h
  rw [scanFaces]
  simp [h.1, h.2.1, h.2.2, he]

/-- Rejected interfaces can be removed from the list: the loop gives the same
variables, the same error and the same queries. -/
theorem scanFaces_filter (faces : List Interface) (p i : IP) :
    scanFaces faces p i = scanFaces (faces.filter eligible) p i := by
  induction faces generalizing p i with
  | nil => rfl
  | cons face faces ih =>
    cases h : eligible face
    · rw [scanFaces_cons_skip face faces p i h, List.filter_cons_of_neg (by simp [h])]
      exact ih p i
    · rw [List.filter_cons_of_pos h]
      cases he : face.Addrs with
      | error err =>
        rw [scanFaces_cons_error face faces p i h err he,
          scanFaces_cons_error face _ p i h err he]
      | ok addrs =>
        rw [scanFaces_cons_ok face faces p i h addrs he,
          scanFaces_cons_ok face _ p i h addrs he]
        split
        · rw [ih]
        · rw [ih]

/-- Every interface the loop queries is an eligible interface of the list. -/
theorem scanFaces_queried (faces : List Interface) (p i : IP) :
    ∀ f ∈ (scanFaces faces p i).1, f ∈ faces ∧ eligible f = true := by
  induction faces generalizing p i with
  | nil => intro f hf; simp [scanFaces] at hf
  | cons face faces ih =>
    intro f hf
    cases h : eligible face
    · rw [scanFaces_cons_skip face faces p i h] at hf
      exact ⟨List.mem_cons_of_mem _ (ih p i f hf).1, (ih p i f hf).2⟩
    · cases he : face.Addrs with
      | error err =>
        rw [scanFaces_cons_error face faces p i h err he] at hf
        simp only [List.mem_singleton] at hf
        subst hf
        exact ⟨List.mem_cons_self _ _, h⟩
      | ok addrs =>
        rw [scanFaces_cons_ok face faces p i h addrs he] at hf
        simp only [List.mem_cons] at hf
        rcases hf with rfl | hf
        · exact ⟨List.mem_cons_self _ _, h⟩
        · split at hf
          · exact ⟨List.mem_cons_of_mem _ (ih _ _ f hf).1, (ih _ _ f hf).2⟩
          · exact ⟨List.mem_cons_of_mem _ (ih _ _ f hf).1, (ih _ _ f hf).2⟩

/-- The loop runs to its end when address enumeration succeeds on every
eligible interface. -/
theorem scanFaces_total (faces : List Interface) (p i : IP)
    (hok : ∀ f ∈ faces, eligible f = true → ∃ addrs, f.Addrs = .ok addrs) :
    ∃ r, (scanFaces faces p i).2 = .ok r := by
  induction faces generalizing p i with
  | nil => exact ⟨(p, i), rfl⟩
  | cons face faces ih =>
    have hok2 : ∀ f ∈ faces, eligible f = true → ∃ addrs, f.Addrs = .ok addrs :=
      fun f hf => hok f (List.mem_cons_of_mem _ hf)
    cases h : eligible face
    · rw [scanFaces_cons_skip face faces p i h]
      exact ih p i hok2
    · obtain ⟨addrs, he⟩ := hok face (List.mem_cons_self _ _) h
      rw [scanFaces_cons_ok face faces p i h addrs he]
      split
      · exact ih _ _ hok2
      · exact ih _ _ hok2

/-- A pick in the tail of the list is a pick in the list. -/
theorem Picked.tail (face : Interface) (faces : List Interface) (ip : IP)
    (h : Picked faces ip) : Picked (face :: faces) ip := by
  obtain ⟨f, hf, hrest⟩ := h
  exact ⟨f, List.mem_cons_of_mem _ hf, hrest⟩

/-- A pick in the list is a pick at the head or in the tail. -/
theorem Picked.cases (face : Interface) (faces : List Interface) (ip : IP)
    (h : Picked (face :: faces) ip) :
    (eligible face = true ∧ ∃ addrs, face.Addrs = .ok addrs ∧ getValidIPv4 addrs = (ip, true))
      ∨ Picked faces ip := by
  obtain ⟨f, hf, hrest⟩ := h
  rcases List.mem_cons.mp hf with rfl | hf
  · exact Or.inl hrest
  · exact Or.inr ⟨f, hf, hrest⟩

/-- What the two variables hold after a loop that ran to its end: each is its
initial value or a pick, `ipv4Addr` is a pick as soon as there is one, and
`privateIpv4Addr` is a private pick as soon as there is one. -/
theorem scanFaces_spec (faces : List Interface) (p i : IP) (r : IP × IP)
    (h : (scanFaces faces p i).2 = .ok r) :
    (r.2 = i ∨ Picked faces r.2)
    ∧ (r.1 = p ∨ (Picked faces r.1 ∧ isPrivateIP r.1 = true))
    ∧ ((∃ ip, Picked faces ip) → Picked faces r.2)
    ∧ ((∃ ip, Picked faces ip ∧ isPrivateIP ip = true)
        → (Picked faces r.1 ∧ isPrivateIP r.1 = true)) := by
  induction faces generalizing p i with
  | nil =>
    simp only [scanFaces, Except.ok.injEq] at h
    subst h
    refine ⟨Or.inl rfl, Or.inl rfl, ?_, ?_⟩
    · rintro ⟨ip, f, hf, _⟩
      cases hf
    · rintro ⟨ip, ⟨f, hf, _⟩, _⟩
      cases hf
  | cons face faces ih =>
    cases he : eligible face
    · rw [scanFaces_cons_skip face faces p i he] at h
      obtain ⟨h1, h2, h3, h4⟩ := ih p i h
      have notHead : ∀ ip, Picked (face :: faces) ip → Picked faces ip := by
        intro ip hp
        rcases Picked.cases face faces ip hp with ⟨hel, _⟩ | hp
        · rw [he] at hel
          cases hel
        · exact hp
      refine ⟨h1.imp id (Picked.tail face faces _), h2.imp id (fun x => ⟨Picked.tail face faces _ x.1, x.2⟩), ?_, ?_⟩
      · rintro ⟨ip, hp⟩
        exact Picked.tail face faces _ (h3 ⟨ip, notHead ip hp⟩)
      · rintro ⟨ip, hp, hpriv⟩
        have := h4 ⟨ip, notHead ip hp, hpriv⟩
        exact ⟨Picked.tail face faces _ this.1, this.2⟩
    · cases ha : face.Addrs with
      | error err =>
        rw [scanFaces_cons_error face faces p i he err ha] at h
        cases h
      | ok addrs =>
        rw [scanFaces_cons_ok face faces p i he addrs ha] at h
        simp only at h
        cases hv : (getValidIPv4 addrs).2
        · -- the head yields no address
          rw [hv] at h
          simp only [Bool.false_eq_true, if_false] at h
          obtain ⟨h1, h2, h3, h4⟩ := ih p i h
          have notHead : ∀ ip, Picked (face :: faces) ip → Picked faces ip := by
            intro ip hp
            rcases Picked.cases face faces ip hp with ⟨_, addrs2, ha2, hg⟩ | hp
            · rw [ha] at ha2
              cases ha2
              rw [hg] at hv
              cases hv
            · exact hp
          refine ⟨h1.imp id (Picked.tail face faces _),
            h2.imp id (fun x => ⟨Picked.tail face faces _ x.1, x.2⟩), ?_, ?_⟩
          · rintro ⟨ip, hp⟩
            exact Picked.tail face faces _ (h3 ⟨ip, notHead ip hp⟩)
          · rintro ⟨ip, hp, hpriv⟩
            have := h4 ⟨ip, notHead ip hp, hpriv⟩
            exact ⟨Picked.tail face faces _ this.1, this.2⟩
        · -- the head yields the address `(getValidIPv4 addrs).1`
          rw [hv] at h
          simp only [if_true] at h
          have hpick : Picked (face :: faces) (getValidIPv4 addrs).1 :=
            ⟨face, List.mem_cons_self _ _, he, addrs, ha, by rw [← hv]⟩
          obtain ⟨h1, h2, h3, h4⟩ := ih _ _ h
          have hr2 : Picked (face :: faces) r.2 := by
            rcases h1 with h1 | h1
            · rw [h1]; exact hpick
            · exact Picked.tail face faces _ h1
          refine ⟨Or.inr hr2, ?_, fun _ => hr2, ?_⟩
          · rcases h2 with h2 | h2
            · by_cases hp : isPrivateIP (getValidIPv4 addrs).1 = true
              · rw [if_pos hp] at h2
                right
                rw [h2]
                exact ⟨hpick, hp⟩
              · rw [if_neg hp] at h2
                exact Or.inl h2
            · exact Or.inr ⟨Picked.tail face faces _ h2.1, h2.2⟩
          · rintro ⟨ip, hp, hpriv⟩
            rcases h2 with h2 | h2
            · by_cases hp2 : isPrivateIP (getValidIPv4 addrs).1 = true
              · rw [if_pos hp2] at h2
                rw [h2]
                exact ⟨hpick, hp2⟩
              · rcases Picked.cases face faces ip hp with ⟨_, addrs2, ha2, hg⟩ | hp
                · exfalso
                  rw [ha] at ha2
                  cases ha2
                  rw [hg] at hp2
                  exact hp2 hpriv
                · have := h4 ⟨ip, hp, hpriv⟩
                  exact ⟨Picked.tail face faces _ this.1, this.2⟩
            · exact ⟨Picked.tail face faces _ h2.1, h2.2⟩

end utils

namespace utils

open net

/-! ### `GetLocalIP` -/

/-- The text of a 4-byte address is its dotted-decimal form. -/
theorem IP.String_four (a b c d : Nat) : IP.String (some [a, b, c, d]) = dotted a b c d := by
  simp [IP.String, IP.len, To4_four, IPv4len, IPv6len, dotted]

/-- A dotted-decimal text is not empty. -/
theorem dotted_ne_empty (a b c d : Nat) : dotted a b c d ≠ "" := by
  intro h
  have := congrArg String.length h
  simp only [dotted, String.length_append] at this
  have hdot : ".".length = 1 := by decide
  have hempty : "".length = 0 := by decide
  omega

set_option maxRecDepth 100000 in
/-- On a byte `ubtoa` is the decimal numeral. -/
theorem ubtoa_eq_repr : ∀ v : Nat, v < 256 → ubtoa v = Nat.repr v := by
  decide

/-- What `GetLocalIP` returns after a loop that ran to its end with the
variables `r`. -/
theorem GetLocalIP_of_scan (faces : List Interface) (r : IP × IP)
    (h : (scanFaces faces none none).2 = .ok r) :
    GetLocalIP (.ok faces) =
      if r.2 = none then ("", some (.Errorf "can not get local IP"))
      else if r.1 = none then (r.2.String, none)
      else (r.1.String, none) := by
  unfold GetLocalIP GetLocalIPTraced
  rcases hs : scanFaces faces none none with ⟨q, res⟩
  rw [hs] at h
  simp only at h
  subst h
  obtain ⟨r1, r2⟩ := r
  simp only [hs]
  by_cases h2 : r2 = none
  · simp [h2]
  · by_cases h1 : r1 = none
    · simp [h1, h2]
    · simp [h1, h2]

/-- What `GetLocalIP` returns after a loop that stopped on an error. -/
theorem GetLocalIP_of_scan_error (faces : List Interface) (err : Error)
    (h : (scanFaces faces none none).2 = .error err) :
    GetLocalIP (.ok faces) = ("", some err) := by
  unfold GetLocalIP GetLocalIPTraced
  rcases hs : scanFaces faces none none with ⟨q, res⟩
  rw [hs] at h
  simp only at h
  subst h
  simp only [hs]

/-- A pick is the 4-byte form `a.b.c.d`, `a` other than 127, of a usable
address of an eligible interface. -/
theorem Picked.bytes (faces : List Interface) (ip : IP) (h : Picked faces ip) :
    ∃ a b c d, ip = some [a, b, c, d] ∧ a ≠ 127
      ∧ ∃ f ∈ faces, eligible f = true ∧ ∃ addrs, f.Addrs = .ok addrs
        ∧ ∃ addr ∈ addrs, usableIPv4 addr = true ∧ (addrIP addr).To4 = some [a, b, c, d] := by
  obtain ⟨f, hf, hel, addrs, ha, hg⟩ := h
  have h2 : (getValidIPv4 addrs).2 = true := by rw [hg]
  obtain ⟨addr, hmem, hus, hip⟩ := getValidIPv4_true addrs h2
  obtain ⟨a, b, c, d, h4, hne⟩ := usableIPv4_bytes addr hus
  rw [hg] at hip
  simp only at hip
  exact ⟨a, b, c, d, by rw [hip, h4], hne, f, hf, hel, addrs, ha, addr, hmem, hus, h4⟩

/-- Some eligible interface has a usable address exactly when there is a
pick. -/
theorem exists_Picked_iff (faces : List Interface) :
    (∃ ip, Picked faces ip) ↔
      ∃ f ∈ faces, eligible f = true ∧ ∃ addrs, f.Addrs = .ok addrs
        ∧ ∃ addr ∈ addrs, usableIPv4 addr = true := by
  constructor
  · rintro ⟨ip, hp⟩
    obtain ⟨_, _, _, _, _, _, f, hf, hel, addrs, ha, addr, hmem, hus, _⟩ := Picked.bytes faces ip hp
    exact ⟨f, hf, hel, addrs, ha, addr, hmem, hus⟩
  · rintro ⟨f, hf, hel, addrs, ha, hex⟩
    have h2 := (getValidIPv4_true_iff addrs).mpr hex
    exact ⟨(getValidIPv4 addrs).1, f, hf, hel, addrs, ha, by rw [← h2]⟩

/-- C3, counterexample: an interface that is up, not loopback and not
docker-named carries 8.8.8.8 and then the private, non-loopback IPv4 address
10.0.0.1; `GetLocalIP` succeeds with "8.8.8.8", which is in none of the
private ranges. -/
theorem getLocalIP_private_not_preferred :
    eligible ethPublicThenPrivate = true
    ∧ (∃ addrs, ethPublicThenPrivate.Addrs = .ok addrs
        ∧ Addr.IPNet ⟨some [10, 0, 0, 1], [255, 0, 0, 0]⟩ ∈ addrs)
    ∧ usableIPv4 (Addr.IPNet ⟨some [10, 0, 0, 1], [255, 0, 0, 0]⟩) = true
    ∧ isPrivateIP (some [10, 0, 0, 1]) = true
    ∧ GetLocalIP (.ok [ethPublicThenPrivate]) = ("8.8.8.8", none)
    ∧ IP.String (some [8, 8, 8, 8]) = "8.8.8.8"
    ∧ isPrivateIP (some [8, 8, 8, 8]) = false := by
  refine ⟨by decide, ⟨_, rfl, by simp⟩, by decide, by decide, by decide, by decide, by decide⟩

/-- C3, amended: when address enumeration succeeds on every eligible
interface and, for some eligible interface, the first non-loopback IPv4
address in its address list is private, `GetLocalIP` succeeds and returns the
dotted-decimal text of a private address, itself the first non-loopback IPv4
address of an eligible interface. -/
theorem getLocalIP_prefers_private_first_address (faces : List Interface)
    (hok : ∀ f ∈ faces, eligible f = true → ∃ addrs, f.Addrs = .ok addrs)
    (hpriv : ∃ f ∈ faces, eligible f = true ∧ ∃ pre addr post,
      f.Addrs = .ok (pre ++ addr :: post) ∧ (∀ x ∈ pre, usableIPv4 x = false)
        ∧ usableIPv4 addr = true ∧ isPrivateIP (addrIP addr).To4 = true) :
    ∃ a b c d, GetLocalIP (.ok faces) = (dotted a b c d, none)
      ∧ dotted a b c d = IP.String (some [a, b, c, d])
      ∧ isPrivateIP (some [a, b, c, d]) = true
      ∧ ((a < 256 ∧ b < 256) → inPrivateRange a b)
      ∧ Picked faces (some [a, b, c, d]) := by
  obtain ⟨r, hr⟩ := scanFaces_total faces none none hok
  obtain ⟨_, _, h3, h4⟩ := scanFaces_spec faces none none r hr
  obtain ⟨f, hf, hel, pre, addr, post, ha, hpre, hus, hp⟩ := hpriv
  have hpick : Picked faces (addrIP addr).To4 :=
    ⟨f, hf, hel, _, ha, getValidIPv4_first pre post addr hpre hus⟩
  obtain ⟨hp1, hpr1⟩ := h4 ⟨_, hpick, hp⟩
  have hp2 := h3 ⟨_, hpick⟩
  obtain ⟨a, b, c, d, e1, _, _⟩ := Picked.bytes faces r.1 hp1
  obtain ⟨a2, b2, c2, d2, e2, _, _⟩ := Picked.bytes faces r.2 hp2
  have hprivate : isPrivateIP (some [a, b, c, d]) = true := by rw [← e1]; exact hpr1
  refine ⟨a, b, c, d, ?_, (IP.String_four a b c d).symm, hprivate,
    fun hab => (isPrivateIP_of_To4 _ a b c d (To4_four a b c d) hab.1 hab.2).mp hprivate,
    by rw [← e1]; exact hp1⟩
  rw [GetLocalIP_of_scan faces r hr, e1, e2]
  simp [IP.String_four]

/-- Witness for C3, amended: the interface `en0` whose first non-loopback IPv4
address, after an IPv6 link-local one, is 192.168.1.7. -/
theorem getLocalIP_prefers_private_first_address_witness :
    ∃ a b c d, GetLocalIP (.ok [loopbackFace, ethPrivate]) = (dotted a b c d, none)
      ∧ dotted a b c d = IP.String (some [a, b, c, d])
      ∧ isPrivateIP (some [a, b, c, d]) = true
      ∧ ((a < 256 ∧ b < 256) → inPrivateRange a b)
      ∧ Picked [loopbackFace, ethPrivate] (some [a, b, c, d]) :=
  getLocalIP_prefers_private_first_address [loopbackFace, ethPrivate]
    (by
      intro f hf _
      simp only [List.mem_cons, List.mem_singleton, List.not_mem_nil, or_false] at hf
      rcases hf with rfl | rfl
      · exact ⟨_, rfl⟩
      · exact ⟨_, rfl⟩)
    ⟨ethPrivate, by simp, by decide,
      [.IPNet ⟨some [0xfe, 0x80, 0, 0, 0, 0, 0, 0, 0, 0, 0, 0, 0, 0, 0, 1],
        [255, 255, 255, 255, 255, 255, 255, 255, 0, 0, 0, 0, 0, 0, 0, 0]⟩],
      .IPNet ⟨some [192, 168, 1, 7], [255, 255, 255, 0]⟩, [], rfl,
      by decide, by decide, by decide⟩

end utils


namespace utils

open net

/-- C4: when address enumeration succeeds on every eligible interface,
`GetLocalIP` returns the empty string with the error "can not get local IP"
if and only if no interface that is up, not loopback and not docker-named has
a non-loopback IPv4 address; otherwise it returns a nil error with a
non-empty address string. -/
theorem getLocalIP_fails_iff_no_address (faces : List Interface)
    (hok : ∀ f ∈ faces, eligible f = true → ∃ addrs, f.Addrs = .ok addrs) :
    (GetLocalIP (.ok faces) = ("", some (.Errorf "can not get local IP"))
      ↔ ¬ ∃ f ∈ faces, eligible f = true ∧ ∃ addrs, f.Addrs = .ok addrs
          ∧ ∃ addr ∈ addrs, usableIPv4 addr = true)
    ∧ ((GetLocalIP (.ok faces)).2 ≠ none
      ↔ ¬ ∃ f ∈ faces, eligible f = true ∧ ∃ addrs, f.Addrs = .ok addrs
          ∧ ∃ addr ∈ addrs, usableIPv4 addr = true)
    ∧ (((GetLocalIP (.ok faces)).2 = none ∧ (GetLocalIP (.ok faces)).1 ≠ "")
      ↔ ∃ f ∈ faces, eligible f = true ∧ ∃ addrs, f.Addrs = .ok addrs
          ∧ ∃ addr ∈ addrs, usableIPv4 addr = true) := by
  obtain ⟨r, hr⟩ := scanFaces_total faces none none hok
  obtain ⟨h1, _, h3, _⟩ := scanFaces_spec faces none none r hr
  have hres := GetLocalIP_of_scan faces r hr
  rw [← exists_Picked_iff]
  by_cases hex : ∃ ip, Picked faces ip
  · -- some address is found
    have hp2 := h3 hex
    obtain ⟨a, b, c, d, e2, _, _⟩ := Picked.bytes faces r.2 hp2
    have hsucc : (GetLocalIP (.ok faces)).2 = none ∧ (GetLocalIP (.ok faces)).1 ≠ "" := by
      rw [hres, e2]
      by_cases hr1 : r.1 = none
      · simp only [hr1, IP.String_four, if_true]
        exact ⟨by simp, dotted_ne_empty a b c d⟩
      · have hp1 : Picked faces r.1 := by
          obtain ⟨_, h2, _, _⟩ := scanFaces_spec faces none none r hr
          rcases h2 with h2 | h2
          · exact absurd h2 hr1
          · exact h2.1
        obtain ⟨a1, b1, c1, d1, e1, _, _⟩ := Picked.bytes faces r.1 hp1
        rw [e1]
        simp only [IP.String_four]
        exact ⟨by simp, by simpa using dotted_ne_empty a1 b1 c1 d1⟩
    refine ⟨⟨?_, fun hn => absurd hex hn⟩, ⟨?_, fun hn => absurd hex hn⟩,
      ⟨fun _ => hex, fun _ => hsucc⟩⟩
    · intro heq
      rw [heq] at hsucc
      exact absurd rfl hsucc.2
    · intro hne
      exact absurd hsucc.1 hne
  · -- no address is found
    have hnone : r.2 = none := by
      rcases h1 with h1 | h1
      · exact h1
      · exact absurd ⟨_, h1⟩ hex
    have hfail : GetLocalIP (.ok faces) = ("", some (.Errorf "can not get local IP")) := by
      rw [hres, if_pos hnone]
    refine ⟨⟨fun _ => hex, fun _ => hfail⟩, ⟨fun _ => hex, fun _ => ?_⟩,
      ⟨fun hs => ?_, fun h => absurd h hex⟩⟩
    · rw [hfail]
      simp
    · rw [hfail] at hs
      exact absurd rfl hs.2

/-- Witness for C4: the loopback interface alone leaves no usable address,
and every eligible interface of that list enumerates its addresses. -/
theorem getLocalIP_fails_iff_no_address_witness :
    GetLocalIP (.ok [loopbackFace]) = ("", some (.Errorf "can not get local IP"))
      ↔ ¬ ∃ f ∈ [loopbackFace], eligible f = true ∧ ∃ addrs, f.Addrs = .ok addrs
          ∧ ∃ addr ∈ addrs, usableIPv4 addr = true :=
  (getLocalIP_fails_iff_no_address [loopbackFace] (by
    intro f hf _
    simp only [List.mem_singleton] at hf
    subst hf
    exact ⟨_, rfl⟩)).1

/-- C5: whenever `GetLocalIP` succeeds, interface enumeration had succeeded
and the returned string is the dotted-decimal text `a.b.c.d` (decimal numerals
of the bytes) of a 4-byte address with `a` other than 127 that is the 4-byte
form of a non-loopback IPv4 address of some interface that is up, not
loopback and not docker-named. -/
theorem getLocalIP_success_valid (sys : Except Error (List Interface))
    (h : (GetLocalIP sys).2 = none) :
    ∃ faces, sys = .ok faces ∧ ∃ a b c d,
      (GetLocalIP sys).1 = dotted a b c d
      ∧ dotted a b c d = IP.String (some [a, b, c, d])
      ∧ ((a < 256 ∧ b < 256 ∧ c < 256 ∧ d < 256) →
          dotted a b c d = Nat.repr a ++ "." ++ Nat.repr b ++ "." ++ Nat.repr c ++ "."
            ++ Nat.repr d)
      ∧ a ≠ 127
      ∧ ∃ f ∈ faces, (f.Flags &&& FlagUp ≠ 0 ∧ f.Flags &&& FlagLoopback = 0
          ∧ strings.Contains (strings.ToLower f.Name) "docker" = false)
        ∧ ∃ addrs, f.Addrs = .ok addrs
          ∧ ∃ addr ∈ addrs, usableIPv4 addr = true
            ∧ (addrIP addr).To4 = some [a, b, c, d] := by
  cases sys with
  | error err => simp [GetLocalIP, GetLocalIPTraced] at h
  | ok faces =>
    refine ⟨faces, rfl, ?_⟩
    cases hs : (scanFaces faces none none).2 with
    | error err =>
      rw [GetLocalIP_of_scan_error faces err hs] at h
      simp at h
    | ok r =>
      have hres := GetLocalIP_of_scan faces r hs
      obtain ⟨h1, h2, _, _⟩ := scanFaces_spec faces none none r hs
      have main : ∀ ip, Picked faces ip → (GetLocalIP (.ok faces)).1 = ip.String →
          ∃ a b c d, (GetLocalIP (.ok faces)).1 = dotted a b c d
            ∧ dotted a b c d = IP.String (some [a, b, c, d])
            ∧ ((a < 256 ∧ b < 256 ∧ c < 256 ∧ d < 256) →
                dotted a b c d = Nat.repr a ++ "." ++ Nat.repr b ++ "." ++ Nat.repr c ++ "."
                  ++ Nat.repr d)
            ∧ a ≠ 127
            ∧ ∃ f ∈ faces, (f.Flags &&& FlagUp ≠ 0 ∧ f.Flags &&& FlagLoopback = 0
                ∧ strings.Contains (strings.ToLower f.Name) "docker" = false)
              ∧ ∃ addrs, f.Addrs = .ok addrs
                ∧ ∃ addr ∈ addrs, usableIPv4 addr = true
                  ∧ (addrIP addr).To4 = some [a, b, c, d] := by
        intro ip hp hstr
        obtain ⟨a, b, c, d, e, hne, f, hf, hel, addrs, ha, addr, hmem, hus, h4⟩ :=
          Picked.bytes faces ip hp
        refine ⟨a, b, c, d, ?_, (IP.String_four a b c d).symm, ?_, hne, f, hf, ?_, addrs, ha,
          addr, hmem, hus, h4⟩
        · rw [hstr, e, IP.String_four]
        · rintro ⟨ha, hb, hc, hd⟩
          simp only [dotted, ubtoa_eq_repr a ha, ubtoa_eq_repr b hb, ubtoa_eq_repr c hc,
            ubtoa_eq_repr d hd]
        · simpa [eligible] using hel
      by_cases hr2 : r.2 = none
      · rw [hres, if_pos hr2] at h
        simp at h
      · have hp2 : Picked faces r.2 := by
          rcases h1 with h1 | h1
          · exact absurd h1 hr2
          · exact h1
        by_cases hr1 : r.1 = none
        · exact main r.2 hp2 (by rw [hres, if_neg hr2, if_pos hr1])
        · have hp1 : Picked faces r.1 := by
            rcases h2 with h2 | h2
            · exact absurd h2 hr1
            · exact h2.1
          exact main r.1 hp1 (by rw [hres, if_neg hr2, if_neg hr1])

/-- Witness for C5: the run on the interface carrying 8.8.8.8 and 10.0.0.1
succeeds. -/
theorem getLocalIP_success_valid_witness :
    ∃ faces, (Except.ok [ethPublicThenPrivate] : Except Error (List Interface)) = Except.ok faces
      ∧ ∃ a b c d,
      (GetLocalIP (.ok [ethPublicThenPrivate])).1 = dotted a b c d
      ∧ dotted a b c d = IP.String (some [a, b, c, d])
      ∧ ((a < 256 ∧ b < 256 ∧ c < 256 ∧ d < 256) →
          dotted a b c d = Nat.repr a ++ "." ++ Nat.repr b ++ "." ++ Nat.repr c ++ "."
            ++ Nat.repr d)
      ∧ a ≠ 127
      ∧ ∃ f ∈ faces, (f.Flags &&& FlagUp ≠ 0 ∧ f.Flags &&& FlagLoopback = 0
          ∧ strings.Contains (strings.ToLower f.Name) "docker" = false)
        ∧ ∃ addrs, f.Addrs = .ok addrs
          ∧ ∃ addr ∈ addrs, usableIPv4 addr = true
            ∧ (addrIP addr).To4 = some [a, b, c, d] :=
  getLocalIP_success_valid (.ok [ethPublicThenPrivate]) (by decide)

/-! ### Names that contain "docker" -/

/-- A lower-case ASCII letter written in either case is lowered to itself. -/
theorem toLowerRune_of_sameLetter (c x : Char) (hx : 97 ≤ x.toNat ∧ x.toNat ≤ 122)
    (h : sameLetter c x = true) : strings.toLowerRune c = x := by
  simp only [sameLetter, Bool.or_eq_true, beq_iff_eq] at h
  unfold strings.toLowerRune
  rcases h with h | h
  · subst h
    have h1 : ¬ (65 ≤ c.toNat ∧ c.toNat ≤ 90) := by omega
    have h2 : ¬ c.toNat = 0x130 := by omega
    have h3 : ¬ c.toNat = 0x212A := by omega
    rw [if_neg h1, if_neg h2, if_neg h3]
  · have h1 : 65 ≤ c.toNat ∧ c.toNat ≤ 90 := by omega
    rw [if_pos h1, h]
    exact Char.ofNat_toNat x

/-- Lowering a spelling of a lower-case word in any case gives the word. -/
theorem map_toLowerRune_of_spells (mid word : List Char)
    (hw : ∀ x ∈ word, 97 ≤ x.toNat ∧ x.toNat ≤ 122) (h : spellsAnyCase mid word = true) :
    mid.map strings.toLowerRune = word := by
  induction mid generalizing word with
  | nil =>
    cases word with
    | nil => rfl
    | cons x word => simp [spellsAnyCase] at h
  | cons c mid ih =>
    cases word with
    | nil => simp [spellsAnyCase] at h
    | cons x word =>
      simp only [spellsAnyCase, Bool.and_eq_true] at h
      rw [List.map_cons, toLowerRune_of_sameLetter c x (hw x (List.mem_cons_self _ _)) h.1,
        ih word (fun y hy => hw y (List.mem_cons_of_mem _ hy)) h.2]

/-- A text has each of its prefixes as a prefix. -/
theorem hasPrefix_append (sub rest : List Char) : strings.hasPrefix (sub ++ rest) sub = true := by
  induction sub with
  | nil => cases rest <;> rfl
  | cons c sub ih => simp [strings.hasPrefix, ih]

/-- The substring search finds a text inside any text built around it. -/
theorem containsAt_append (pre sub post : List Char) :
    strings.containsAt (pre ++ sub ++ post) sub = true := by
  induction pre with
  | nil =>
    rw [List.nil_append]
    cases hs : sub ++ post with
    | nil =>
      have : sub = [] := (List.append_eq_nil.mp hs).1
      subst this
      rfl
    | cons c s =>
      rw [strings.containsAt, ← hs, hasPrefix_append]
      rfl
  | cons c pre ih =>
    rw [List.cons_append, List.cons_append, strings.containsAt, ih]
    simp

/-- A name that contains the word "docker" with each letter in either case
has "docker" in its lower-cased form. -/
theorem contains_docker_any_case (name : String) (pre mid post : List Char)
    (hname : name.data = pre ++ mid ++ post)
    (hmid : spellsAnyCase mid "docker".data = true) :
    strings.Contains (strings.ToLower name) "docker" = true := by
  have hw : ∀ x ∈ "docker".data, 97 ≤ x.toNat ∧ x.toNat ≤ 122 := by decide
  have hlow := map_toLowerRune_of_spells mid "docker".data hw hmid
  unfold strings.Contains strings.ToLower
  simp only [hname, List.map_append, hlow]
  exact containsAt_append _ _ _

/-- C6: an interface that is down, is a loopback interface or has "docker" in
its name in any letter case never influences `GetLocalIP`. The result and the
queries are those of the list with all such interfaces removed, removing any
one of them (whatever its address enumeration would answer) leaves the result
unchanged, and every interface whose addresses are queried is up, not
loopback and not docker-named. A name containing the word "docker" with each
letter in either case is such a name, as "docker0", "Docker0" and "br-DOCKER"
are; a docker bridge whose address enumeration fails does not make
`GetLocalIP` fail. -/
theorem getLocalIP_ignores_filtered_interfaces (faces : List Interface) :
    GetLocalIP (.ok faces) = GetLocalIP (.ok (faces.filter eligible))
    ∧ queriedFaces (.ok faces) = queriedFaces (.ok (faces.filter eligible))
    ∧ (∀ f ∈ queriedFaces (.ok faces), f ∈ faces ∧ f.Flags &&& FlagUp ≠ 0
        ∧ f.Flags &&& FlagLoopback = 0
        ∧ strings.Contains (strings.ToLower f.Name) "docker" = false)
    ∧ (∀ f : Interface, (f.Flags &&& FlagUp = 0 ∨ f.Flags &&& FlagLoopback ≠ 0
          ∨ strings.Contains (strings.ToLower f.Name) "docker" = true) →
        eligible f = false
        ∧ ∀ pre post : List Interface,
          GetLocalIP (.ok (pre ++ f :: post)) = GetLocalIP (.ok (pre ++ post))
          ∧ f ∉ queriedFaces (.ok (pre ++ f :: post)))
    ∧ (∀ (f : Interface) (pre mid post : List Char), f.Name.data = pre ++ mid ++ post →
        spellsAnyCase mid "docker".data = true → eligible f = false)
    ∧ strings.Contains (strings.ToLower "docker0") "docker" = true
    ∧ strings.Contains (strings.ToLower "Docker0") "docker" = true
    ∧ strings.Contains (strings.ToLower "br-DOCKER") "docker" = true
    ∧ GetLocalIP (.ok [dockerBroken, ethPrivate]) = ("192.168.1.7", none)
    ∧ (queriedFaces (.ok [dockerBroken, loopbackFace, ethPrivate])).map (fun f => f.Name)
        = ["en0"] := by
  have traced : ∀ l : List Interface,
      GetLocalIPTraced (.ok l) = GetLocalIPTraced (.ok (l.filter eligible)) := by
    intro l
    unfold GetLocalIPTraced
    simp only
    rw [← scanFaces_filter]
  have hq : ∀ l : List Interface, ∀ f ∈ queriedFaces (.ok l), f ∈ l ∧ eligible f = true := by
    intro l f hf
    have key := scanFaces_queried l none none f
    apply key
    unfold queriedFaces GetLocalIPTraced at hf
    simp only at hf
    rcases hs : scanFaces l none none with ⟨q, res⟩
    rw [hs] at hf
    cases res with
    | error err => simpa using hf
    | ok r =>
      obtain ⟨r1, r2⟩ := r
      simp only at hf
      by_cases h2 : r2 = none
      · simpa [h2] using hf
      · by_cases h1 : r1 = none
        · simpa [h1, h2] using hf
        · simpa [h1, h2] using hf
  refine ⟨?_, ?_, ?_, ?_, ?_, by decide, by decide, by decide, by decide, by decide⟩
  · unfold GetLocalIP
    rw [traced]
  · unfold queriedFaces
    rw [traced]
  · intro f hf
    obtain ⟨hmem, hel⟩ := hq faces f hf
    simp only [eligible, decide_eq_true_eq, ne_eq] at hel
    exact ⟨hmem, hel.1, hel.2.1, hel.2.2⟩
  · intro f hf
    have hel : eligible f = false := (eligible_eq_false_iff f).mpr hf
    refine ⟨hel, fun pre post => ⟨?_, ?_⟩⟩
    · unfold GetLocalIP
      rw [traced (pre ++ f :: post), traced (pre ++ post)]
      simp [List.filter_append, List.filter_cons, hel]
    · intro hmem
      have := (hq _ f hmem).2
      rw [hel] at this
      cases this
  · intro f pre mid post hname hmid
    exact (eligible_eq_false_iff f).mpr
      (Or.inr (Or.inr (contains_docker_any_case f.Name pre mid post hname hmid)))

end utils


/-! ## Further properties of `remoting/listener.go` -/

namespace remoting

/-- The rendering of an Event whose action is outside `0..2`: the frame around
the marker that `fmt` writes for the recovered panic. -/
theorem Event.String_invalid_action (e : Event) (h : (e.Action : Int) < 0 ∨ (3 : Int) ≤ e.Action) :
    Event.String e = "Event\x7bAction\x7b%!s(PANIC=String method: "
      ++ boundsErrorText e.Action 3 ++ ")\x7d, Content\x7b" ++ e.Content ++ "\x7d\x7d" := by
  unfold Event.String
  rw [EventType.String_out_of_range e.Action h]
  simp only [fmtStringer, String.append_assoc]
  rfl

/-- The rendering of an Event whose action is in `0..2` starts with the frame
and one of the letters `a`, `d`, `u`. -/
theorem Event.String_valid_head (e : Event) (h : (0 : Int) ≤ e.Action ∧ e.Action ≤ (2 : Int)) :
    ∃ c rest, (c = 'a' ∨ c = 'd' ∨ c = 'u')
      ∧ (Event.String e).data = "Event\x7bAction\x7b".data ++ c :: rest := by
  obtain ⟨n, hn⟩ := Int.eq_ofNat_of_zero_le h.1
  have h2 : (n : Int) ≤ 2 := hn ▸ h.2
  have hn3 : n < 3 := by omega
  unfold Event.String
  rw [hn]
  interval_cases n
  · exact ⟨'a', _, Or.inl rfl, by simp [EventType.String, index, serviceEventTypeStrings, fmtStringer]; rfl⟩
  · exact ⟨'d', _, Or.inr (Or.inl rfl), by simp [EventType.String, index, serviceEventTypeStrings, fmtStringer]; rfl⟩
  · exact ⟨'u', _, Or.inr (Or.inr rfl), by simp [EventType.String, index, serviceEventTypeStrings, fmtStringer]; rfl⟩

/-- The rendering of an Event whose action is outside `0..2` starts with the
frame and the character `%` of the panic marker. -/
theorem Event.String_invalid_head (e : Event)
    (h : (e.Action : Int) < 0 ∨ (3 : Int) ≤ e.Action) :
    ∃ rest, (Event.String e).data = "Event\x7bAction\x7b".data ++ '%' :: rest := by
  unfold Event.String
  rw [EventType.String_out_of_range e.Action h]
  exact ⟨_, by simp [fmtStringer]; rfl⟩

/-- C12, counterexample: the Events with action 5 and with action -1 are
rendered to a string. `EventType.String` panics on these actions, but
`fmt.Sprintf` recovers the panic of a `String` method and writes a marker in
its place, so `Event.String` returns. -/
theorem event_string_invalid_action_returns :
    EventType.String 5 = .panic "runtime error: index out of range [5] with length 3"
    ∧ Event.String ⟨"/services/foo", 5, "x"⟩
      = "Event\x7bAction\x7b%!s(PANIC=String method: runtime error: index out of range [5] with length 3)\x7d, Content\x7bx\x7d\x7d"
    ∧ EventType.String (-1) = .panic "runtime error: index out of range [-1]"
    ∧ Event.String ⟨"/services/foo", -1, "x"⟩
      = "Event\x7bAction\x7b%!s(PANIC=String method: runtime error: index out of range [-1])\x7d, Content\x7bx\x7d\x7d" := by
  decide

/-- C12, amended: for every Event whose Action is outside {0,1,2},
`EventType.String` of the action panics with the index-out-of-range error,
and `Event.String` returns the usual frame with the marker
`%!s(PANIC=String method: ` followed by the text of that error and `)` in the
place of the action; this text differs from the rendering of every Event
whose Action is in {0,1,2}. -/
theorem event_string_invalid_action_marker (e : Event)
    (h : (e.Action : Int) < 0 ∨ (3 : Int) ≤ e.Action) :
    EventType.String e.Action = .panic (boundsErrorText e.Action 3)
    ∧ Event.String e = "Event\x7bAction\x7b%!s(PANIC=String method: "
        ++ boundsErrorText e.Action 3 ++ ")\x7d, Content\x7b" ++ e.Content ++ "\x7d\x7d"
    ∧ ∀ e2 : Event, ((0 : Int) ≤ e2.Action ∧ e2.Action ≤ (2 : Int)) →
        Event.String e ≠ Event.String e2 := by
  refine ⟨EventType.String_out_of_range e.Action h, Event.String_invalid_action e h, ?_⟩
  intro e2 h2 heq
  obtain ⟨rest, hr⟩ := Event.String_invalid_head e h
  obtain ⟨c, rest2, hc, hr2⟩ := Event.String_valid_head e2 h2
  rw [heq, hr2] at hr
  have := List.append_cancel_left hr
  simp only [List.cons.injEq] at this
  rcases hc with rfl | rfl | rfl
  · exact absurd this.1 (by decide)
  · exact absurd this.1 (by decide)
  · exact absurd this.1 (by decide)

/-- Witness for C12, amended: the Event with action 7. -/
theorem event_string_invalid_action_marker_witness :
    EventType.String (Event.mk "/services/foo" 7 "v1").Action
      = .panic (boundsErrorText (Event.mk "/services/foo" 7 "v1").Action 3)
    ∧ Event.String (Event.mk "/services/foo" 7 "v1") = "Event\x7bAction\x7b%!s(PANIC=String method: "
        ++ boundsErrorText (Event.mk "/services/foo" 7 "v1").Action 3 ++ ")\x7d, Content\x7b"
        ++ (Event.mk "/services/foo" 7 "v1").Content ++ "\x7d\x7d"
    ∧ ∀ e2 : Event, ((0 : Int) ≤ e2.Action ∧ e2.Action ≤ (2 : Int)) →
        Event.String (Event.mk "/services/foo" 7 "v1") ≠ Event.String e2 :=
  event_string_invalid_action_marker (Event.mk "/services/foo" 7 "v1") (by decide)

/-- C16: `Event.String` ignores the path. Two Events with the same Action and
the same Content render to the same text whatever their Paths are, so the
rendering is not injective: two Events that differ only in their paths are
unequal and render alike. -/
theorem event_string_ignores_path (e1 e2 : Event) (ha : e1.Action = e2.Action)
    (hc : e1.Content = e2.Content) :
    Event.String e1 = Event.String e2
    ∧ (∀ path : String, Event.String ⟨path, e1.Action, e1.Content⟩ = Event.String e1)
    ∧ (∃ a b : Event, a ≠ b ∧ Event.String a = Event.String b)
    ∧ ¬ Function.Injective Event.String := by
  have hne : Event.mk "/services/foo" EventTypeAdd "x" ≠ Event.mk "/services/bar" EventTypeAdd "x" := by
    decide
  refine ⟨?_, fun _ => rfl, ⟨_, _, hne, rfl⟩, ?_⟩
  · unfold Event.String
    rw [ha, hc]
  · intro hinj
    exact hne (hinj rfl)

/-- Witness for C16: an Update of "/services/foo" and an Update of
"/services/bar" with the same content. -/
theorem event_string_ignores_path_witness :
    Event.String (Event.mk "/services/foo" EventTypeUpdate "v1=1.2.3.5:8080")
      = Event.String (Event.mk "/services/bar" EventTypeUpdate "v1=1.2.3.5:8080") :=
  (event_string_ignores_path (Event.mk "/services/foo" EventTypeUpdate "v1=1.2.3.5:8080")
    (Event.mk "/services/bar" EventTypeUpdate "v1=1.2.3.5:8080") rfl rfl).1

end remoting


/-! ## Properties of the dispatcher -/

namespace remoting

/-- The listeners of a path after one more registration for that path. -/
theorem Dispatcher.listeners_append_same (d : Dispatcher) (path : String) (l : DataListener) :
    Dispatcher.listeners { registry := d.registry ++ [(path, l)] } path
      = d.listeners path ++ [l] := by
  simp [Dispatcher.listeners, List.filter_append]

/-- A first registration of a listener for a non-empty path is added after
the listeners already registered for that path. -/
theorem Dispatcher.Subscribe_new (d : Dispatcher) (path : String) (l : DataListener)
    (hp : path ≠ "") (hnew : ∀ x ∈ d.listeners path, x.id ≠ l.id) :
    d.Subscribe path l = .ok { registry := d.registry ++ [(path, l)] } := by
  unfold Dispatcher.Subscribe
  have hany : (d.listeners path).any (fun x => decide (x.id = l.id)) = false := by
    rw [List.any_eq_false]
    intro x hx
    simpa using hnew x hx
  rw [if_neg hp, hany]
  simp

/-- The invocations a `Notify` makes among listeners none of which is one of
two given listeners contain no call to either of them. -/
theorem calls_filter_none (ls : List DataListener) (e : Event) (i j : Nat)
    (hi : ∀ l ∈ ls, l.id ≠ i) (hj : ∀ l ∈ ls, l.id ≠ j) :
    (ls.map fun l => Call.mk l.id e (handledBy l e)).filter
      (fun c => decide (c.listener = i ∨ c.listener = j)) = [] := by
  rw [List.filter_eq_nil_iff]
  intro c hc
  obtain ⟨l, hl, rfl⟩ := List.mem_map.mp hc
  simp [hi l hl, hj l hl]

/-- C11: broadcast delivery in registration order. From a dispatcher in which
neither L1 nor L2 is registered for the non-empty path P, subscribing L1 and
then L2 to P succeeds, and a single Notify of an Event with path P invokes
`DataChange` after the listeners registered before on L1 and then on L2,
each exactly once and with that exact Event, whatever L1 returns or raises. -/
theorem notify_broadcast_in_registration_order (d : Dispatcher) (P : String)
    (L1 L2 : DataListener) (e : Event) (hP : P ≠ "") (hid : L1.id ≠ L2.id)
    (h1 : ∀ l ∈ d.listeners P, l.id ≠ L1.id) (h2 : ∀ l ∈ d.listeners P, l.id ≠ L2.id)
    (he : e.Path = P) :
    ∃ d1 d2 calls, d.Subscribe P L1 = .ok d1 ∧ d1.Subscribe P L2 = .ok d2
      ∧ d2.Notify e = .ok calls
      ∧ calls = ((d.listeners P).map fun l => Call.mk l.id e (handledBy l e))
          ++ [Call.mk L1.id e (handledBy L1 e), Call.mk L2.id e (handledBy L2 e)]
      ∧ calls.filter (fun c => decide (c.listener = L1.id ∨ c.listener = L2.id))
          = [Call.mk L1.id e (handledBy L1 e), Call.mk L2.id e (handledBy L2 e)]
      ∧ (calls.filter fun c => decide (c.listener = L1.id)).length = 1
      ∧ (calls.filter fun c => decide (c.listener = L2.id)).length = 1 := by
  have hs1 := Dispatcher.Subscribe_new d P L1 hP h1
  have hl1 := Dispatcher.listeners_append_same d P L1
  have hs2 := Dispatcher.Subscribe_new { registry := d.registry ++ [(P, L1)] } P L2 hP (by
    intro x hx
    rw [hl1, List.mem_append, List.mem_singleton] at hx
    rcases hx with hx | rfl
    · exact h2 x hx
    · exact hid)
  have hl2 := Dispatcher.listeners_append_same { registry := d.registry ++ [(P, L1)] } P L2
  rw [hl1] at hl2
  have hcalls : Dispatcher.Notify { registry := d.registry ++ [(P, L1)] ++ [(P, L2)] } e
      = .ok (((d.listeners P).map fun l => Call.mk l.id e (handledBy l e))
          ++ [Call.mk L1.id e (handledBy L1 e), Call.mk L2.id e (handledBy L2 e)]) := by
    unfold Dispatcher.Notify
    rw [if_neg (by rw [he]; exact hP), he, hl2]
    simp
  have hnone := calls_filter_none (d.listeners P) e L1.id L2.id h1 h2
  have hnone1 := calls_filter_none (d.listeners P) e L1.id L1.id h1 h1
  have hnone2 := calls_filter_none (d.listeners P) e L2.id L2.id h2 h2
  simp only [or_self] at hnone1 hnone2
  refine ⟨_, _, _, hs1, hs2, hcalls, rfl, ?_, ?_, ?_⟩
  · rw [List.filter_append, hnone]
    simp
  · rw [List.filter_append, hnone1]
    simp [Ne.symm hid]
  · rw [List.filter_append, hnone2]
    simp [hid]

/-- Witness for C11: on the empty dispatcher, a listener that raises and then
a listener that answers true are subscribed to "/services/foo". -/
theorem notify_broadcast_in_registration_order_witness :
    ∃ d1 d2 calls,
      Dispatcher.Subscribe ⟨[]⟩ "/services/foo" (listenerRaises 1) = .ok d1
      ∧ d1.Subscribe "/services/foo" (listenerYes 2) = .ok d2
      ∧ d2.Notify (Event.mk "/services/foo" EventTypeAdd "v1=1.2.3.4:8080") = .ok calls
      ∧ calls = ((Dispatcher.listeners ⟨[]⟩ "/services/foo").map fun l =>
            Call.mk l.id (Event.mk "/services/foo" EventTypeAdd "v1=1.2.3.4:8080")
              (handledBy l (Event.mk "/services/foo" EventTypeAdd "v1=1.2.3.4:8080")))
          ++ [Call.mk (listenerRaises 1).id (Event.mk "/services/foo" EventTypeAdd "v1=1.2.3.4:8080")
                (handledBy (listenerRaises 1) (Event.mk "/services/foo" EventTypeAdd "v1=1.2.3.4:8080")),
              Call.mk (listenerYes 2).id (Event.mk "/services/foo" EventTypeAdd "v1=1.2.3.4:8080")
                (handledBy (listenerYes 2) (Event.mk "/services/foo" EventTypeAdd "v1=1.2.3.4:8080"))]
      ∧ calls.filter (fun c => decide (c.listener = (listenerRaises 1).id ∨ c.listener = (listenerYes 2).id))
          = [Call.mk (listenerRaises 1).id (Event.mk "/services/foo" EventTypeAdd "v1=1.2.3.4:8080")
                (handledBy (listenerRaises 1) (Event.mk "/services/foo" EventTypeAdd "v1=1.2.3.4:8080")),
              Call.mk (listenerYes 2).id (Event.mk "/services/foo" EventTypeAdd "v1=1.2.3.4:8080")
                (handledBy (listenerYes 2) (Event.mk "/services/foo" EventTypeAdd "v1=1.2.3.4:8080"))]
      ∧ (calls.filter fun c => decide (c.listener = (listenerRaises 1).id)).length = 1
      ∧ (calls.filter fun c => decide (c.listener = (listenerYes 2).id)).length = 1 :=
  notify_broadcast_in_registration_order ⟨[]⟩ "/services/foo" (listenerRaises 1) (listenerYes 2)
    (Event.mk "/services/foo" EventTypeAdd "v1=1.2.3.4:8080") (by decide) (by decide)
    (by intro l hl; cases hl) (by intro l hl; cases hl) rfl

end remoting


/-! ## Further properties of `common/utils/net.go` -/

namespace utils

open net

/-! ### `getValidIPv4` as a first-match search -/

/-- An IP converts to four bytes exactly when it has four bytes or is a
16-byte IPv4-mapped address. -/
theorem To4_ne_none_iff (ip : IP) :
    ip.To4 ≠ none ↔ (ip.len = 4 ∨ (ip.len = 16 ∧ ip.bytes.take 12 = v4InV6Prefix)) := by
  cases ip with
  | none => simp [IP.To4, IP.len, IPv4len, IPv6len]
  | some b =>
    by_cases h4 : b.length = 4
    · simp [IP.To4, IP.len, IPv4len, h4]
    · by_cases h16 : b.length = 16
      · match b, h16 with
        | [b0, b1, b2, b3, b4, b5, b6, b7, b8, b9, b10, b11, b12, b13, b14, b15], _ =>
          simp [IP.To4, IP.len, IP.bytes, IPv4len, IPv6len, isZeros, v4InV6Prefix]
      · simp [IP.To4, IP.len, IPv4len, IPv6len, h4, h16]

/-- A list with a usable address splits at its first usable address. -/
theorem first_usable_split (addrs : List Addr) (h : ∃ x ∈ addrs, usableIPv4 x = true) :
    ∃ pre addr post, addrs = pre ++ addr :: post ∧ (∀ x ∈ pre, usableIPv4 x = false)
      ∧ usableIPv4 addr = true := by
  induction addrs with
  | nil =>
    obtain ⟨x, hx, _⟩ := h
    cases hx
  | cons y addrs ih =>
    cases hy : usableIPv4 y
    · obtain ⟨x, hx, hux⟩ := h
      have hx2 : x ∈ addrs := by
        rcases List.mem_cons.mp hx with rfl | hx
        · rw [hy] at hux
          cases hux
        · exact hx
      obtain ⟨pre, addr, post, hsplit, hpre, hus⟩ := ih ⟨x, hx2, hux⟩
      refine ⟨y :: pre, addr, post, by rw [hsplit]; rfl, ?_, hus⟩
      intro z hz
      rcases List.mem_cons.mp hz with rfl | hz
      · exact hy
      · exact hpre z hz
    · exact ⟨[], y, addrs, rfl, fun z hz => absurd hz (List.not_mem_nil z), hy⟩

/-- What makes an address usable: it is an `*net.IPNet` or `*net.IPAddr`, its
IP is not nil, is not a loopback address, and has four bytes or is a 16-byte
IPv4-mapped address. -/
theorem usableIPv4_iff (x : Addr) :
    usableIPv4 x = true ↔
      ∃ ip, ((∃ mask, x = .IPNet ⟨ip, mask⟩) ∨ (∃ zone, x = .IPAddr ip zone))
        ∧ ip ≠ none ∧ ip.IsLoopback = false
        ∧ (ip.len = 4 ∨ (ip.len = 16 ∧ ip.bytes.take 12 = v4InV6Prefix)) := by
  simp only [usableIPv4, decide_eq_true_eq]
  constructor
  · rintro ⟨h1, h2, h3⟩
    cases x with
    | IPNet v => exact ⟨v.IP, Or.inl ⟨v.Mask, rfl⟩, h1, h2, (To4_ne_none_iff _).mp h3⟩
    | IPAddr ip zone => exact ⟨ip, Or.inr ⟨zone, rfl⟩, h1, h2, (To4_ne_none_iff _).mp h3⟩
    | other n t => exact absurd rfl h1
  · rintro ⟨ip, hx, h1, h2, h3⟩
    rcases hx with ⟨mask, rfl⟩ | ⟨zone, rfl⟩
    · exact ⟨h1, h2, (To4_ne_none_iff _).mpr h3⟩
    · exact ⟨h1, h2, (To4_ne_none_iff _).mpr h3⟩

/-- C13: `getValidIPv4` is a first-match search. Either the list splits at its
first usable entry (an `*net.IPNet` or `*net.IPAddr` with a non-nil,
non-loopback IP of four bytes or of 16 IPv4-mapped bytes) and the result is
the 4-byte form `a.b.c.d` of that entry with `true`, where `a` is not 127;
or no entry is usable and the result is `(nil, false)`, which happens in no
other case. Entries of another address type, with a nil IP, a loopback IP
(127.x.x.x, ::1) or a genuine IPv6 address are skipped and the search goes
on. -/
theorem getValidIPv4_first_match (addrs : List Addr) :
    ((∃ pre addr post a b c d, addrs = pre ++ addr :: post
          ∧ (∀ x ∈ pre, usableIPv4 x = false) ∧ usableIPv4 addr = true
          ∧ (addrIP addr).To4 = some [a, b, c, d] ∧ a ≠ 127
          ∧ getValidIPv4 addrs = (some [a, b, c, d], true))
      ∨ ((∀ x ∈ addrs, usableIPv4 x = false) ∧ getValidIPv4 addrs = (none, false)))
    ∧ (getValidIPv4 addrs = (none, false) ↔ ∀ x ∈ addrs, usableIPv4 x = false)
    ∧ ((getValidIPv4 addrs).2 = true →
        ∃ a b c d, (getValidIPv4 addrs).1 = some [a, b, c, d] ∧ a ≠ 127)
    ∧ (∀ x : Addr, usableIPv4 x = true ↔
        ∃ ip, ((∃ mask, x = .IPNet ⟨ip, mask⟩) ∨ (∃ zone, x = .IPAddr ip zone))
          ∧ ip ≠ none ∧ ip.IsLoopback = false
          ∧ (ip.len = 4 ∨ (ip.len = 16 ∧ ip.bytes.take 12 = v4InV6Prefix)))
    ∧ (∀ x : Addr, usableIPv4 x = false → getValidIPv4 (x :: addrs) = getValidIPv4 addrs)
    ∧ (∀ network text : String, usableIPv4 (.other network text) = false)
    ∧ (∀ mask : List Nat, usableIPv4 (.IPNet ⟨none, mask⟩) = false)
    ∧ (∀ zone : String, usableIPv4 (.IPAddr none zone) = false)
    ∧ (∀ (b c d : Nat) (mask : List Nat), usableIPv4 (.IPNet ⟨some [127, b, c, d], mask⟩) = false)
    ∧ (∀ (b c d : Nat) (mask : List Nat),
        usableIPv4 (.IPNet ⟨some (v4InV6Prefix ++ [127, b, c, d]), mask⟩) = false)
    ∧ (∀ mask : List Nat, usableIPv4 (.IPNet ⟨IPv6loopback, mask⟩) = false)
    ∧ (∀ (ip : IP) (mask : List Nat), ip.To4 = none → usableIPv4 (.IPNet ⟨ip, mask⟩) = false)
    ∧ getValidIPv4 [.other "tcp" "10.0.0.9:80", .IPAddr none "", .IPNet ⟨some [127, 0, 0, 1], [255, 0, 0, 0]⟩,
        .IPNet ⟨IPv6loopback, []⟩,
        .IPNet ⟨some [0xfe, 0x80, 0, 0, 0, 0, 0, 0, 0, 0, 0, 0, 0, 0, 0, 1], []⟩,
        .IPAddr (some (v4InV6Prefix ++ [8, 8, 4, 4])) "", .IPNet ⟨some [10, 0, 0, 1], [255, 0, 0, 0]⟩]
      = (some [8, 8, 4, 4], true) := by
  have hfalse_iff : (getValidIPv4 addrs).2 = false ↔ ∀ x ∈ addrs, usableIPv4 x = false := by
    constructor
    · intro h x hx
      cases hu : usableIPv4 x
      · rfl
      · have := (getValidIPv4_true_iff addrs).mpr ⟨x, hx, hu⟩
        rw [h] at this
        cases this
    · intro h
      rw [getValidIPv4_eq_false addrs h]
  refine ⟨?_, ?_, ?_, usableIPv4_iff, fun x hx => getValidIPv4_cons_skip x addrs hx,
    ?_, ?_, ?_, ?_, ?_, ?_, ?_, by decide⟩
  · cases h : (getValidIPv4 addrs).2
    · right
      have hall := hfalse_iff.mp h
      exact ⟨hall, getValidIPv4_eq_false addrs hall⟩
    · left
      obtain ⟨pre, addr, post, hsplit, hpre, hus⟩ :=
        first_usable_split addrs ((getValidIPv4_true_iff addrs).mp h)
      obtain ⟨a, b, c, d, h4, hne⟩ := usableIPv4_bytes addr hus
      refine ⟨pre, addr, post, a, b, c, d, hsplit, hpre, hus, h4, hne, ?_⟩
      rw [hsplit, getValidIPv4_first pre post addr hpre hus, h4]
  · constructor
    · intro h
      exact hfalse_iff.mp (by rw [h])
    · exact getValidIPv4_eq_false addrs
  · intro h
    obtain ⟨addr, _, hus, hip⟩ := getValidIPv4_true addrs h
    obtain ⟨a, b, c, d, h4, hne⟩ := usableIPv4_bytes addr hus
    exact ⟨a, b, c, d, by rw [hip, h4], hne⟩
  · intro n t
    simp [usableIPv4, addrIP]
  · intro m
    simp [usableIPv4, addrIP]
  · intro z
    simp [usableIPv4, addrIP]
  · intro b c d m
    simp [usableIPv4, addrIP, IP.IsLoopback, To4_four]
  · intro b c d m
    simp [usableIPv4, addrIP, IP.IsLoopback, To4_mapped]
  · intro m
    have : IP.IsLoopback IPv6loopback = true := by decide
    simp [usableIPv4, addrIP, this]
  · intro ip m h
    simp [usableIPv4, addrIP, h]

end utils


/-! ### The selection rule and the propagation of errors -/

namespace utils

open net

/-- The last element of a list, `d` when the list is empty. -/
theorem getLast?_getD_cons (c d : IP) (l : List IP) :
    (c :: l).getLast?.getD d = l.getLast?.getD c := by
  cases l with
  | nil => rfl
  | cons x l =>
    rw [List.getLast?_cons_cons]
    induction l generalizing x c with
    | nil => rfl
    | cons y l ih =>
      rw [List.getLast?_cons_cons]
      exact ih x y

/-- The candidates of a list that starts with an interface without
candidate. -/
theorem candidates_cons_none (face : Interface) (faces : List Interface)
    (h : candidate face = none) : candidates (face :: faces) = candidates faces := by
  simp [candidates, List.filterMap_cons, h]

/-- The candidates of a list that starts with an interface with a
candidate. -/
theorem candidates_cons_some (face : Interface) (faces : List Interface) (ip : IP)
    (h : candidate face = some ip) : candidates (face :: faces) = ip :: candidates faces := by
  simp [candidates, List.filterMap_cons, h]

/-- Every candidate is a pick. -/
theorem Picked_of_mem_candidates (faces : List Interface) (ip : IP)
    (h : ip ∈ candidates faces) : Picked faces ip := by
  obtain ⟨f, hf, hc⟩ := List.mem_filterMap.mp h
  unfold candidate at hc
  split at hc
  · next hel =>
    split at hc
    · next addrs ha =>
      split at hc
      · next hv =>
        cases hc
        exact ⟨f, hf, hel, addrs, ha, by rw [← hv]⟩
      · cases hc
    · cases hc
  · cases hc

/-- After a loop that meets no enumeration error the two variables hold the
last private candidate and the last candidate, or their initial values. -/
theorem scanFaces_candidates (faces : List Interface) (p i : IP)
    (hok : ∀ f ∈ faces, eligible f = true → ∃ addrs, f.Addrs = .ok addrs) :
    (scanFaces faces p i).2
      = .ok (((candidates faces).filter isPrivateIP).getLast?.getD p,
          (candidates faces).getLast?.getD i) := by
  induction faces generalizing p i with
  | nil => rfl
  | cons face faces ih =>
    have hok2 : ∀ f ∈ faces, eligible f = true → ∃ addrs, f.Addrs = .ok addrs :=
      fun f hf => hok f (List.mem_cons_of_mem _ hf)
    cases h : eligible face
    · rw [scanFaces_cons_skip face faces p i h,
        candidates_cons_none face faces (by simp [candidate, h])]
      exact ih p i hok2
    · obtain ⟨addrs, he⟩ := hok face (List.mem_cons_self _ _) h
      rw [scanFaces_cons_ok face faces p i h addrs he]
      simp only
      cases hv : (getValidIPv4 addrs).2
      · rw [if_neg (by simp), candidates_cons_none face faces (by simp [candidate, h, he, hv])]
        exact ih p i hok2
      · rw [if_pos rfl,
          candidates_cons_some face faces (getValidIPv4 addrs).1 (by simp [candidate, h, he, hv]),
          ih _ _ hok2, getLast?_getD_cons]
        by_cases hp : isPrivateIP (getValidIPv4 addrs).1 = true
        · rw [if_pos hp, List.filter_cons_of_pos hp, getLast?_getD_cons]
        · rw [if_neg hp, List.filter_cons_of_neg hp]

/-- The loop stops with the wrapped error of the first eligible interface
whose address enumeration fails. -/
theorem scanFaces_error (faces : List Interface) (p i : IP)
    (h : ∃ f ∈ faces, eligible f = true ∧ ∃ err, f.Addrs = .error err) :
    ∃ f ∈ faces, eligible f = true ∧ ∃ err, f.Addrs = .error err
      ∧ (scanFaces faces p i).2 = .error (.WithStack err) := by
  induction faces generalizing p i with
  | nil =>
    obtain ⟨f, hf, _⟩ := h
    cases hf
  | cons face faces ih =>
    have tail : (∃ f ∈ faces, eligible f = true ∧ ∃ err, f.Addrs = .error err) →
        ∀ p2 i2, (scanFaces faces p2 i2).2 = (scanFaces (face :: faces) p i).2 →
        ∃ f ∈ face :: faces, eligible f = true ∧ ∃ err, f.Addrs = .error err
          ∧ (scanFaces (face :: faces) p i).2 = .error (.WithStack err) := by
      intro hex p2 i2 heq
      obtain ⟨f, hf, hel, err, herr, hres⟩ := ih p2 i2 hex
      exact ⟨f, List.mem_cons_of_mem _ hf, hel, err, herr, by rw [← heq, hres]⟩
    cases hel : eligible face
    · have hex : ∃ f ∈ faces, eligible f = true ∧ ∃ err, f.Addrs = .error err := by
        obtain ⟨f, hf, hfel, herr⟩ := h
        rcases List.mem_cons.mp hf with rfl | hf
        · rw [hel] at hfel
          cases hfel
        · exact ⟨f, hf, hfel, herr⟩
      exact tail hex p i (by rw [scanFaces_cons_skip face faces p i hel])
    · cases ha : face.Addrs with
      | error err =>
        exact ⟨face, List.mem_cons_self _ _, hel, err, ha,
          by rw [scanFaces_cons_error face faces p i hel err ha]⟩
      | ok addrs =>
        have hex : ∃ f ∈ faces, eligible f = true ∧ ∃ err, f.Addrs = .error err := by
          obtain ⟨f, hf, hfel, err, herr⟩ := h
          rcases List.mem_cons.mp hf with rfl | hf
          · rw [ha] at herr
            cases herr
          · exact ⟨f, hf, hfel, err, herr⟩
        rw [scanFaces_cons_ok face faces p i hel addrs ha]
        simp only
        by_cases hv : (getValidIPv4 addrs).2 = true
        · obtain ⟨f, hf, hfel, err, herr, hres⟩ := ih
            (if isPrivateIP (getValidIPv4 addrs).1 = true then (getValidIPv4 addrs).1 else p)
            (getValidIPv4 addrs).1 hex
          exact ⟨f, List.mem_cons_of_mem _ hf, hfel, err, herr, by rw [if_pos hv, hres]⟩
        · obtain ⟨f, hf, hfel, err, herr, hres⟩ := ih p i hex
          exact ⟨f, List.mem_cons_of_mem _ hf, hfel, err, herr, by rw [if_neg hv, hres]⟩

/-- No candidate is the nil address. -/
theorem candidate_ne_none (faces : List Interface) (ip : IP) (h : ip ∈ candidates faces) :
    ip ≠ none := by
  obtain ⟨a, b, c, d, e, _⟩ := Picked.bytes faces ip (Picked_of_mem_candidates faces ip h)
  rw [e]
  simp

/-- C14: the selection rule of `GetLocalIP` is "last match wins". With the
candidates of the interfaces taken in enumeration order (for each interface
that is up, not loopback and not docker-named and for which `getValidIPv4`
succeeds, the address it returns), and address enumeration succeeding on
every such interface, `GetLocalIP` returns the last private candidate if
there is one, otherwise the last candidate, otherwise the error. With
10.0.0.1 and then 192.168.1.1 it returns "192.168.1.1"; with 10.0.0.1 and
then 8.8.8.8 it returns "10.0.0.1". -/
theorem getLocalIP_last_match_wins (faces : List Interface)
    (hok : ∀ f ∈ faces, eligible f = true → ∃ addrs, f.Addrs = .ok addrs) :
    GetLocalIP (.ok faces) = selectLastMatch (candidates faces)
    ∧ (∀ ip ∈ candidates faces, Picked faces ip)
    ∧ candidates [ethTen, ethHome] = [some [10, 0, 0, 1], some [192, 168, 1, 1]]
    ∧ GetLocalIP (.ok [ethTen, ethHome]) = ("192.168.1.1", none)
    ∧ candidates [ethTen, ethPublic] = [some [10, 0, 0, 1], some [8, 8, 8, 8]]
    ∧ GetLocalIP (.ok [ethTen, ethPublic]) = ("10.0.0.1", none) := by
  refine ⟨?_, Picked_of_mem_candidates faces, by decide, by decide, by decide, by decide⟩
  have hscan := scanFaces_candidates faces none none hok
  rw [GetLocalIP_of_scan faces _ hscan]
  simp only
  unfold selectLastMatch
  cases hC : (candidates faces).getLast? with
  | none =>
    have hnil : candidates faces = [] := List.getLast?_eq_none_iff.mp hC
    simp [hnil]
  | some ip =>
    have hip : ip ≠ none :=
      candidate_ne_none faces ip (List.mem_of_getLast?_eq_some hC)
    cases hF : ((candidates faces).filter isPrivateIP).getLast? with
    | none => simp [hip]
    | some ip2 =>
      have hip2 : ip2 ≠ none :=
        candidate_ne_none faces ip2 (List.mem_filter.mp (List.mem_of_getLast?_eq_some hF)).1
      simp [hip, hip2]

/-- Witness for C14: a public interface followed by two private ones. -/
theorem getLocalIP_last_match_wins_witness :
    GetLocalIP (.ok [ethPublic, ethTen, loopbackFace, ethHome])
      = selectLastMatch (candidates [ethPublic, ethTen, loopbackFace, ethHome]) :=
  (getLocalIP_last_match_wins [ethPublic, ethTen, loopbackFace, ethHome] (by
    intro f hf _
    simp only [List.mem_cons, List.mem_singleton, List.not_mem_nil, or_false] at hf
    rcases hf with rfl | rfl | rfl | rfl
    · exact ⟨_, rfl⟩
    · exact ⟨_, rfl⟩
    · exact ⟨_, rfl⟩
    · exact ⟨_, rfl⟩)).1

/-- C15: error propagation in `GetLocalIP` is all-or-nothing. A failed
interface enumeration, or a failed address enumeration on any interface that
is up, not loopback and not docker-named, makes `GetLocalIP` return the empty
string with the wrapped error, even after an earlier interface yielded a
usable address; and no result carries both an error and a non-empty
address. -/
theorem getLocalIP_error_all_or_nothing (sys : Except Error (List Interface)) :
    ((GetLocalIP sys).2 ≠ none → (GetLocalIP sys).1 = "")
    ∧ (∀ err, sys = .error err → GetLocalIP sys = ("", some (.WithStack err)))
    ∧ (∀ faces, sys = .ok faces →
        (∃ f ∈ faces, eligible f = true ∧ ∃ err, f.Addrs = .error err) →
        ∃ f ∈ faces, eligible f = true ∧ ∃ err, f.Addrs = .error err
          ∧ GetLocalIP sys = ("", some (.WithStack err)))
    ∧ GetLocalIP (.ok [ethTen]) = ("10.0.0.1", none)
    ∧ GetLocalIP (.ok [ethTen, ethBroken])
        = ("", some (.WithStack (.sys "route ip+net: invalid network interface")))
    ∧ GetLocalIP (.ok [ethPublic, ethBroken, ethHome])
        = ("", some (.WithStack (.sys "route ip+net: invalid network interface")))
    ∧ GetLocalIP (.error (.sys "route ip+net: netlinkrib: too many open files"))
        = ("", some (.WithStack (.sys "route ip+net: netlinkrib: too many open files"))) := by
  refine ⟨?_, ?_, ?_, by decide, by decide, by decide, by decide⟩
  · intro hne
    cases sys with
    | error err => rfl
    | ok faces =>
      cases hs : (scanFaces faces none none).2 with
      | error err => rw [GetLocalIP_of_scan_error faces err hs]
      | ok r =>
        rw [GetLocalIP_of_scan faces r hs] at hne ⊢
        by_cases h2 : r.2 = none
        · rw [if_pos h2]
        · exfalso
          apply hne
          rw [if_neg h2]
          by_cases h1 : r.1 = none
          · rw [if_pos h1]
          · rw [if_neg h1]
  · rintro err rfl
    rfl
  · rintro faces rfl hex
    obtain ⟨f, hf, hel, err, herr, hres⟩ := scanFaces_error faces none none hex
    exact ⟨f, hf, hel, err, herr, GetLocalIP_of_scan_error faces _ hres⟩

end utils

end Dubbo
